import Mathlib

/-!
Verification of the parallel-sweep coverage planner of
`src/algorithms/parallel_sweep.py`: a shallow embedding of
`SingleParallelSweep` and `MultipleParallelSweep`, together with proofs
about the generated action streams.

Modelling choices:
* Python integers are `Int` (planner positions and sizes may be negative
  in principle) or `Nat` (coordinator sizes and agent counts, which come
  from the environment as sizes).
* The generator `generate_next_movement` is modelled as a step function:
  one step of `sweepIter` is one pass through the body of its
  `while True` loop (each pass yields two or three actions), and
  `sweepRun` iterates it.  The (infinite) action stream is recovered as
  the family of its `k`-pass prefixes.
* `math.sqrt` is modelled as the exact natural square root
  (`Nat.findGreatest`): every claim about the coordinator concerns agent
  counts that are perfect squares, the special case 2, the value 0
  (where `math.sqrt 0.0 = 0.0` exactly), or counts rejected before the
  square root is taken, so the float and the exact model agree there.
* A Python `ValueError` / `ZeroDivisionError` raised in a constructor is
  modelled with `Except PyErr`.
-/

namespace ParallelSweep

/-- The `PossibleActions` enum of the source. -/
inductive PossibleActions where
  | left
  | right
  | up
  | down
  | search
  deriving DecidableEq

/-- Wire codes of the actions: `left=0, right=1, up=2, down=3, search=4`. -/
def PossibleActions.value : PossibleActions → Nat
  | .left => 0
  | .right => 1
  | .up => 2
  | .down => 3
  | .search => 4

/-- The `DroneInfo` dataclass. -/
structure DroneInfo where
  grid_size : Int
  initial_position : Int × Int
  last_vertice : Int × Int
  deriving DecidableEq

/-- The mutable state of a `SingleParallelSweep` object, together with
the `is_going_right` local variable of its `generate_next_movement`
generator (the constructor does not touch that variable; the generator
sets it to `True` before entering its loop). -/
structure SweepState where
  grid_size : Int
  drone_x : Int
  drone_y : Int
  end_position_x : Int
  end_position_y : Int
  is_going_down : Bool
  is_going_right : Bool
  deriving DecidableEq

/-- `SingleParallelSweep.get_end_position`. -/
def get_end_position (grid_size : Int) (last_vertice : Int × Int) : Int × Int :=
  if grid_size % 2 = 0 then (last_vertice.1, last_vertice.2 - grid_size + 1)
  else (last_vertice.1, last_vertice.2)

/-- `SingleParallelSweep.__init__`: unconditionally stores the grid size,
position and last vertex, derives the end position, and starts in the
going-down phase.  No validation of any kind is performed. -/
def SingleParallelSweep.init (info : DroneInfo) : SweepState :=
  { grid_size := info.grid_size
    drone_x := info.initial_position.1
    drone_y := info.initial_position.2
    end_position_x := (get_end_position info.grid_size info.last_vertice).1
    end_position_y := (get_end_position info.grid_size info.last_vertice).2
    is_going_down := true
    is_going_right := true }

/-- `SingleParallelSweep.check_if_done`: the stateful turnaround check.
Returns the Python return value together with the mutated state. -/
def check_if_done (s : SweepState) : Bool × SweepState :=
  if s.is_going_down then
    let reached_last_vertice :=
      s.drone_x = s.end_position_x ∧ s.drone_y = s.end_position_y
    (decide reached_last_vertice,
      if reached_last_vertice then { s with is_going_down := false } else s)
  else
    let reached_initial_position := s.drone_x = 0 ∧ s.drone_y = 0
    (decide reached_initial_position,
      if reached_initial_position then { s with is_going_down := true } else s)

/-- One pass through the body of the `while True` loop of
`SingleParallelSweep.generate_next_movement`: the actions yielded during
the pass (in yield order) and the state after it. -/
def sweepIter (s : SweepState) : List PossibleActions × SweepState :=
  if s.is_going_down then
    if s.is_going_right then
      let s1 : SweepState := { s with drone_y := s.drone_y + 1 }
      if s1.drone_y = s1.grid_size - 1 then
        let s2 : SweepState := { s1 with is_going_right := false }
        match check_if_done s2 with
        | (true, s3) => ([.search, .right], s3)
        | (false, s3) => ([.search, .right, .down], { s3 with drone_x := s3.drone_x + 1 })
      else
        ([.search, .right], s1)
    else
      let s1 : SweepState := { s with drone_y := s.drone_y - 1 }
      if s1.drone_y = 0 then
        let s2 : SweepState := { s1 with is_going_right := true }
        match check_if_done s2 with
        | (true, s3) => ([.search, .left], s3)
        | (false, s3) => ([.search, .left, .down], { s3 with drone_x := s3.drone_x + 1 })
      else
        ([.search, .left], s1)
  else
    if s.is_going_right then
      let s1 : SweepState := { s with drone_y := s.drone_y + 1 }
      if s1.drone_y = s1.grid_size - 1 then
        let s2 : SweepState := { s1 with is_going_right := false }
        match check_if_done s2 with
        | (true, s3) => ([.search, .right], s3)
        | (false, s3) => ([.search, .right, .up], { s3 with drone_x := s3.drone_x - 1 })
      else
        ([.search, .right], s1)
    else
      let s1 : SweepState := { s with drone_y := s.drone_y - 1 }
      if s1.drone_y = 0 then
        let s2 : SweepState := { s1 with is_going_right := true }
        match check_if_done s2 with
        | (true, s3) => ([.search, .left], s3)
        | (false, s3) => ([.search, .left, .up], { s3 with drone_x := s3.drone_x - 1 })
      else
        ([.search, .left], s1)

/-- `k` passes of the loop of `generate_next_movement`: the concatenated
actions and the final state. -/
def sweepRun (s : SweepState) : Nat → List PossibleActions × SweepState
  | 0 => ([], s)
  | k + 1 =>
      let p := sweepIter s
      let q := sweepRun p.2 k
      (p.1 ++ q.1, q.2)

/-- `SingleParallelSweep.generate_next_movement`, truncated at `k` loop
passes.  The generator first calls `check_if_done`; if it fires, it
yields a single `search` and returns (a finite stream), otherwise it
sets `is_going_right = True` and loops forever. -/
def generate_next_movement (s : SweepState) (k : Nat) : List PossibleActions × SweepState :=
  match check_if_done s with
  | (true, s1) => ([.search], s1)
  | (false, s1) => sweepRun { s1 with is_going_right := true } k

/-- The action stream of the planner built from `info` (first `k` loop
passes). -/
def actionStream (info : DroneInfo) (k : Nat) : List PossibleActions :=
  (generate_next_movement (SingleParallelSweep.init info) k).1

/-- `SingleParallelSweep.genarate_next_action` (sic): the stream of wire
codes. -/
def genarate_next_action (info : DroneInfo) (k : Nat) : List Nat :=
  (actionStream info k).map PossibleActions.value

/-- Effect of one action on the position tracked by a consumer of the
stream. -/
def applyAction (p : Int × Int) : PossibleActions → Int × Int
  | .left => (p.1, p.2 - 1)
  | .right => (p.1, p.2 + 1)
  | .up => (p.1 - 1, p.2)
  | .down => (p.1 + 1, p.2)
  | .search => p

/-- All positions occupied while consuming an action list starting from
`p` (the starting position included). -/
def trackPositions (p : Int × Int) : List PossibleActions → List (Int × Int)
  | [] => [p]
  | a :: rest => p :: trackPositions (applyAction p a) rest

/-- The positions at which a `search` action is emitted while consuming
an action list starting from `p`. -/
def searchedCells (p : Int × Int) : List PossibleActions → List (Int × Int)
  | [] => []
  | .search :: rest => p :: searchedCells p rest
  | a :: rest => searchedCells (applyAction p a) rest

/-- The position after consuming the whole action list from `p`. -/
def finalPos (p : Int × Int) (l : List PossibleActions) : Int × Int :=
  l.foldl applyAction p

/-- Errors raised by the coordinator constructor. -/
inductive PyErr where
  /-- ValueError: the number of agents must be 1 or 2 or a multiple of 4. -/
  | invalidAgentCount
  /-- ValueError: the grid size must be a multiple of the number of agents. -/
  | invalidPartition
  /-- ZeroDivisionError raised by `grid_size / 0.0`. -/
  | zeroDivision
  deriving DecidableEq

deriving instance DecidableEq for Except

/-- `math.sqrt`, modelled as the exact natural square root (see the file
comment: the claims only exercise inputs on which the float square root
is exact). -/
def math_sqrt (n : Nat) : Nat := Nat.findGreatest (fun k => k * k ≤ n) n

/-- `MultipleParallelSweep.get_each_drone_grid_size`.  The float
divisibility test `grid_size / divisor % 1 != 0` is modelled as the
divisibility of the integers; `grid_size / 0.0` raises
`ZeroDivisionError` before that test. -/
def get_each_drone_grid_size (grid_size n_drones : Nat) : Except PyErr Nat :=
  if ¬(n_drones = 1 ∨ n_drones = 2) ∧ n_drones % 4 ≠ 0 then
    .error .invalidAgentCount
  else
    let divisor := if n_drones = 2 then 2 else math_sqrt n_drones
    if divisor = 0 then .error .zeroDivision
    else if grid_size % divisor ≠ 0 then .error .invalidPartition
    else .ok (grid_size / divisor)

/-- The state of a constructed `MultipleParallelSweep` coordinator. -/
structure MultipleParallelSweep where
  grid_size : Nat
  n_drones : Nat
  grid_size_each_drone : Nat
  deriving DecidableEq

/-- `MultipleParallelSweep.__init__`: stores the grid size and the agent
count and computes the per-drone grid size (which may raise). -/
def MultipleParallelSweep.init (grid_size n_drones : Nat) :
    Except PyErr MultipleParallelSweep :=
  match get_each_drone_grid_size grid_size n_drones with
  | .error e => .error e
  | .ok m =>
      .ok { grid_size := grid_size, n_drones := n_drones, grid_size_each_drone := m }

/-- `MultipleParallelSweep.get_first_drone_info`. -/
def MultipleParallelSweep.get_first_drone_info (c : MultipleParallelSweep) : DroneInfo :=
  let last_vertice : Int × Int :=
    if c.n_drones ≠ 2 then
      ((c.grid_size_each_drone : Int) - 1, (c.grid_size_each_drone : Int) - 1)
    else
      ((c.grid_size_each_drone : Int) * 2 - 1, 0)
  { grid_size := (c.grid_size_each_drone : Int)
    initial_position := (0, 0)
    last_vertice := last_vertice }

/-- The key under which agent `i` appears in an action map. -/
def droneKey (i : Nat) : String := "drone" ++ toString i

/-- `MultipleParallelSweep.generate_next_action`, truncated at `k` loop
passes of the reference planner: one action map per yielded action code,
assigning that code to every drone key. -/
def MultipleParallelSweep.generate_next_action (c : MultipleParallelSweep) (k : Nat) :
    List (List (String × Nat)) :=
  (genarate_next_action c.get_first_drone_info k).map
    (fun action => (List.range c.n_drones).map (fun i => (droneKey i, action)))

/-- The `DroneInfo` of a stand-alone single-agent planner on an `n × n`
grid: initial position `(0,0)` and last vertex `(n-1, n-1)`. -/
def squareInfo (n : Nat) : DroneInfo :=
  { grid_size := (n : Int)
    initial_position := (0, 0)
    last_vertice := ((n : Int) - 1, (n : Int) - 1) }

/-- The end position of the planner on a square `n × n` grid, as
computed by `get_end_position`. -/
def endPos (n : Nat) : Int × Int :=
  ((n : Int) - 1, if n % 2 = 0 then 0 else (n : Int) - 1)

/-- Number of loop passes in one full vertical sweep of an `n × n`
grid: `n` rows of `n - 1` passes each. -/
def downIters (n : Nat) : Nat := n * (n - 1)

/-- `p` lies in the `n × n` grid. -/
def inBounds (n : Nat) (p : Int × Int) : Prop :=
  0 ≤ p.1 ∧ p.1 < (n : Int) ∧ 0 ≤ p.2 ∧ p.2 < (n : Int)

/-- The planner state at the start of down-sweep row `i` of the square
`n × n` sweep: even rows are swept to the right from column 0, odd rows
to the left from column `n - 1`. -/
def dRow (n i : Nat) : SweepState :=
  { grid_size := (n : Int)
    drone_x := (i : Int)
    drone_y := if i % 2 = 0 then 0 else (n : Int) - 1
    end_position_x := (n : Int) - 1
    end_position_y := if n % 2 = 0 then 0 else (n : Int) - 1
    is_going_down := true
    is_going_right := decide (i % 2 = 0) }

/-- The planner state after `r` complete up-sweep rows of the square
`n × n` sweep (standing at the start of row `n - 1 - r`): the up sweep
retraces the down sweep, so row `i` is swept to the right exactly when
`i` is odd. -/
def uRow (n r : Nat) : SweepState :=
  { grid_size := (n : Int)
    drone_x := (n : Int) - 1 - (r : Int)
    drone_y := if (n - 1 - r) % 2 = 0 then (n : Int) - 1 else 0
    end_position_x := (n : Int) - 1
    end_position_y := if n % 2 = 0 then 0 else (n : Int) - 1
    is_going_down := false
    is_going_right := decide ((n - 1 - r) % 2 = 1) }

/-- The actions of `k` straight loop passes moving right: `search`,
`right` repeated. -/
def hChunkR (k : Nat) : List PossibleActions :=
  (List.replicate k [PossibleActions.search, PossibleActions.right]).flatten

/-- The actions of `k` straight loop passes moving left: `search`,
`left` repeated. -/
def hChunkL (k : Nat) : List PossibleActions :=
  (List.replicate k [PossibleActions.search, PossibleActions.left]).flatten

/-- The shape invariant of the action stream: a concatenation of loop
passes, each yielding `search`, one horizontal move, and optionally one
vertical move. -/
inductive Blocks : List PossibleActions → Prop where
  | nil : Blocks []
  | short (h : PossibleActions) (rest : List PossibleActions) :
      (h = .left ∨ h = .right) → Blocks rest → Blocks (.search :: h :: rest)
  | long (h v : PossibleActions) (rest : List PossibleActions) :
      (h = .left ∨ h = .right) → (v = .up ∨ v = .down) → Blocks rest →
      Blocks (.search :: h :: v :: rest)

/-- The property claimed of the stream: every move action is immediately
preceded by a `search` action. -/
def searchBeforeEveryMove (l : List PossibleActions) : Prop :=
  ∀ i, (h : i + 1 < l.length) →
    l.get ⟨i + 1, h⟩ ≠ .search → l.get ⟨i, Nat.lt_of_succ_lt h⟩ = .search

/-- The per-pass invariant of the square `n × n` sweep: the state is in
bounds, the horizontal direction always has room for one more step, and
the parity of the current row determines the horizontal direction
(down phase: even rows move right; up phase: odd rows move right). -/
def SweepInv (n : Nat) (s : SweepState) : Prop :=
  s.grid_size = (n : Int) ∧
  s.end_position_x = (n : Int) - 1 ∧
  s.end_position_y = (if n % 2 = 0 then 0 else (n : Int) - 1) ∧
  0 ≤ s.drone_x ∧ s.drone_x ≤ (n : Int) - 1 ∧
  (s.is_going_right = true → 0 ≤ s.drone_y ∧ s.drone_y ≤ (n : Int) - 2) ∧
  (s.is_going_right = false → 1 ≤ s.drone_y ∧ s.drone_y ≤ (n : Int) - 1) ∧
  (s.is_going_down = true → (s.is_going_right = true ↔ s.drone_x % 2 = 0)) ∧
  (s.is_going_down = false → (s.is_going_right = true ↔ s.drone_x % 2 = 1))


/-- The cells of row `x` searched during one down sweep: the sweep turn
corner of each row (the far end in sweep direction) is passed through
without a search. -/
def dSearchCond (n x y : Nat) : Prop :=
  if x % 2 = 0 then y ≤ n - 2 else 1 ≤ y ∧ y ≤ n - 1

/-- The cells of row `x` searched during one up sweep (the mirror image
of `dSearchCond`, since the up sweep retraces the path). -/
def uSearchCond (n x y : Nat) : Prop :=
  if x % 2 = 0 then 1 ≤ y ∧ y ≤ n - 1 else y ≤ n - 2

/-! ### Basic facts about the coordinator arithmetic -/

theorem math_sqrt_mul_self (d : Nat) : math_sqrt (d * d) = d := by
  rcases Nat.eq_zero_or_pos d with hd | hd
  · subst hd; rfl
  · have hdle : d ≤ d * d := Nat.le_mul_of_pos_left d hd
    unfold math_sqrt
    refine le_antisymm ?_ (Nat.le_findGreatest hdle (le_refl (d * d)))
    by_contra hlt
    push_neg at hlt
    have hP : Nat.findGreatest (fun k => k * k ≤ d * d) (d * d) *
        Nat.findGreatest (fun k => k * k ≤ d * d) (d * d) ≤ d * d :=
      @Nat.findGreatest_spec d (fun k => k * k ≤ d * d) (fun k => inferInstance)
        (d * d) hdle (le_refl (d * d))
    nlinarith [hP, hlt]

/-- C4: for every agent count that is 1, 2, or a multiple of 4, and every
grid size that the divisor (2 for two agents, otherwise the exact integer
square root of the agent count) divides evenly, `get_each_drone_grid_size`
succeeds and returns a positive sub-grid size whose product with the
divisor is the grid size. -/
theorem c4_partition_validity (a g d : Nat)
    (ha : a = 1 ∨ a = 2 ∨ a % 4 = 0)
    (hd2 : a = 2 → d = 2) (hdsq : a ≠ 2 → d * d = a)
    (hdvd : d ∣ g) (hg : 0 < g) :
    get_each_drone_grid_size g a = .ok (g / d) ∧ 0 < g / d ∧ g / d * d = g := by
  have hd0 : 0 < d := by
    rcases Nat.eq_zero_or_pos d with h0 | h
    · exfalso; subst h0
      have := Nat.eq_zero_of_zero_dvd hdvd
      omega
    · exact h
  have hdiv : (if a = 2 then 2 else math_sqrt a) = d := by
    by_cases h2 : a = 2
    · rw [if_pos h2, hd2 h2]
    · rw [if_neg h2, ← hdsq h2, math_sqrt_mul_self]
  have hmain : get_each_drone_grid_size g a = .ok (g / d) := by
    unfold get_each_drone_grid_size
    rw [if_neg (by tauto)]
    simp only [hdiv]
    rw [if_neg (by omega)]
    have hmod : g % d = 0 := Nat.mod_eq_zero_of_dvd hdvd
    rw [if_neg (by simp [hmod])]
  refine ⟨hmain, Nat.div_pos (Nat.le_of_dvd hg hdvd) hd0, Nat.div_mul_cancel hdvd⟩

theorem c4_witness :
    (4 = 1 ∨ 4 = 2 ∨ 4 % 4 = 0) ∧ (2 : Nat) ∣ 8 ∧ 0 < 8 ∧
    (get_each_drone_grid_size 8 4 = .ok (8 / 2) ∧ 0 < 8 / 2 ∧ 8 / 2 * 2 = 8) :=
  ⟨by decide, by decide, by decide,
    c4_partition_validity 4 8 2 (by decide) (by decide) (by decide) (by decide) (by decide)⟩

/-- C5: for every agent count that is not 1, not 2 and not a multiple of
4, coordinator construction raises the invalid-agent-count error for
every grid size, before any partition is computed. -/
theorem c5_invalid_agent_count (g a : Nat) (h1 : a ≠ 1) (h2 : a ≠ 2) (h4 : a % 4 ≠ 0) :
    MultipleParallelSweep.init g a = .error .invalidAgentCount ∧
    get_each_drone_grid_size g a = .error .invalidAgentCount := by
  have h : get_each_drone_grid_size g a = .error .invalidAgentCount := by
    unfold get_each_drone_grid_size
    rw [if_pos ⟨by tauto, h4⟩]
  refine ⟨?_, h⟩
  unfold MultipleParallelSweep.init
  rw [h]

theorem c5_witness :
    (3 ≠ 1 ∧ 3 ≠ 2 ∧ 3 % 4 ≠ 0) ∧
    (MultipleParallelSweep.init 10 3 = .error .invalidAgentCount ∧
      get_each_drone_grid_size 10 3 = .error .invalidAgentCount) :=
  ⟨by decide, c5_invalid_agent_count 10 3 (by decide) (by decide) (by decide)⟩

/-- C6: the end position computed at construction is the last vertex when
the grid size is odd, and the last vertex shifted down the row by
`gridSize - 1` when even; concretely `(1, 0)` for `gridSize = 2` and
`lastVertex = (1, 1)`. -/
theorem c6_end_position :
    (∀ info : DroneInfo,
      ((SingleParallelSweep.init info).end_position_x,
        (SingleParallelSweep.init info).end_position_y) =
      (if info.grid_size % 2 = 0 then
        (info.last_vertice.1, info.last_vertice.2 - info.grid_size + 1)
      else (info.last_vertice.1, info.last_vertice.2))) ∧
    ((SingleParallelSweep.init ⟨2, (0, 0), (1, 1)⟩).end_position_x,
      (SingleParallelSweep.init ⟨2, (0, 0), (1, 1)⟩).end_position_y) = (1, 0) := by
  refine ⟨fun info => ?_, by decide⟩
  simp only [SingleParallelSweep.init, get_end_position]

/-- C8 as stated is false: constructing a planner with a non-positive
grid size is not rejected; `SingleParallelSweep.__init__` performs no
validation and produces an ordinary planner state for `gridSize = 0`. -/
theorem c8_counterexample :
    SingleParallelSweep.init ⟨0, (0, 0), (0, 0)⟩ =
      { grid_size := 0, drone_x := 0, drone_y := 0, end_position_x := 0,
        end_position_y := 1, is_going_down := true, is_going_right := true } := by
  decide

/-- C8 amended: construction never validates the grid size; for any
`gridSize <= 0` the constructor still produces the planner state given by
the usual field formulas (no `InvalidGridSize` error exists in the code). -/
theorem c8_no_grid_size_validation (g ix iy lx ly : Int) (hg : g ≤ 0) :
    SingleParallelSweep.init ⟨g, (ix, iy), (lx, ly)⟩ =
      { grid_size := g, drone_x := ix, drone_y := iy,
        end_position_x := lx,
        end_position_y := if g % 2 = 0 then ly - g + 1 else ly,
        is_going_down := true, is_going_right := true } := by
  simp only [SingleParallelSweep.init, get_end_position]
  split <;> rfl

theorem c8_witness :
    (0 : Int) ≤ 0 ∧
    SingleParallelSweep.init ⟨0, (0, 0), (5, 7)⟩ =
      { grid_size := 0, drone_x := 0, drone_y := 0, end_position_x := 5,
        end_position_y := 8, is_going_down := true, is_going_right := true } := by
  refine ⟨le_refl 0, ?_⟩
  have h := c8_no_grid_size_validation 0 0 0 5 7 (le_refl 0)
  simpa using h

/-- C10: for zero agents the agent-count check passes (0 is a multiple of
4), and construction instead fails with the division-by-zero error from
`grid_size / math.sqrt(0)`, for every grid size. -/
theorem c10_zero_agents_division (g : Nat) :
    MultipleParallelSweep.init g 0 = .error .zeroDivision ∧
    MultipleParallelSweep.init g 0 ≠ .error .invalidAgentCount := by
  have h : get_each_drone_grid_size g 0 = .error .zeroDivision := by
    unfold get_each_drone_grid_size
    rw [if_neg (by omega)]
    rfl
  constructor
  · unfold MultipleParallelSweep.init
    rw [h]
  · unfold MultipleParallelSweep.init
    rw [h]
    simp

/-- C3 as stated is false: the reference planner the coordinator builds
for two agents (grid 4, sub-grid size 2, last vertex `(3, 0)`) reaches
the position `(2, 0)` whose row coordinate is not below its own
`gridSize = 2`. -/
theorem c3_counterexample :
    MultipleParallelSweep.init 4 2 = .ok ⟨4, 2, 2⟩ ∧
    (MultipleParallelSweep.mk 4 2 2).get_first_drone_info.grid_size = 2 ∧
    ((2 : Int), (0 : Int)) ∈ trackPositions (0, 0)
      (actionStream (MultipleParallelSweep.mk 4 2 2).get_first_drone_info 2) ∧
    ¬ ((2 : Int) < (2 : Int)) := by
  decide

/-- C7 as stated is false: in the stream of the planner on the 2 by 2
grid the third action is `down`, and it is immediately preceded by
`right`, not by `search`. -/
theorem c7_counterexample :
    ¬ searchBeforeEveryMove (actionStream (squareInfo 2) 1) := by
  intro hP
  have h := hP 1 (by decide) (by decide)
  exact absurd h (by decide)

/-- C9 as stated is false: for four agents on an 8 by 8 grid the computed
sub-grid size is 4, not 2. -/
theorem c9_counterexample :
    get_each_drone_grid_size 8 4 = .ok 4 ∧ (4 : Nat) ≠ 2 ∧
    MultipleParallelSweep.init 8 4 = .ok ⟨8, 4, 4⟩ := by
  decide

/-- C9 amended: for every validly constructed coordinator with `a`
agents (for four agents on an 8 by 8 grid the sub-grid size is 4), every
yielded action map has exactly the keys `drone0 ... drone(a-1)` in order
and assigns the identical action code to every key. -/
theorem c9_broadcast_consistency (g a : Nat) (c : MultipleParallelSweep)
    (hc : MultipleParallelSweep.init g a = .ok c) (k : Nat)
    (mp : List (String × Nat)) (hmp : mp ∈ c.generate_next_action k) :
    mp.map Prod.fst = (List.range a).map droneKey ∧ ∃ v, ∀ pr ∈ mp, pr.2 = v := by
  have hn : c.n_drones = a := by
    unfold MultipleParallelSweep.init at hc
    cases h : get_each_drone_grid_size g a with
    | error e => rw [h] at hc; cases hc
    | ok m => rw [h] at hc; cases hc; rfl
  unfold MultipleParallelSweep.generate_next_action at hmp
  obtain ⟨v, hv, rfl⟩ := List.mem_map.mp hmp
  constructor
  · rw [List.map_map, hn]
    rfl
  · refine ⟨v, ?_⟩
    intro pr hpr
    obtain ⟨i, hi, rfl⟩ := List.mem_map.mp hpr
    rfl

theorem c9_witness :
    ((List.range 4).map (fun i => (droneKey i, (4 : Nat)))).map Prod.fst =
      (List.range 4).map droneKey ∧
    ∃ v, ∀ pr ∈ (List.range 4).map (fun i => (droneKey i, (4 : Nat))), pr.2 = v :=
  c9_broadcast_consistency 8 4 ⟨8, 4, 4⟩ (by decide) 1 _ (by decide)



/-! ### Stream bookkeeping lemmas -/

theorem sweepRun_add (a b : Nat) (s : SweepState) :
    sweepRun s (a + b) =
      ((sweepRun s a).1 ++ (sweepRun (sweepRun s a).2 b).1,
        (sweepRun (sweepRun s a).2 b).2) := by
  induction a generalizing s with
  | zero => simp [sweepRun]
  | succ n ih =>
      rw [show n + 1 + b = (n + b) + 1 from by omega]
      simp [sweepRun, ih, List.append_assoc]

theorem finalPos_append (p : Int × Int) (l1 l2 : List PossibleActions) :
    finalPos p (l1 ++ l2) = finalPos (finalPos p l1) l2 := by
  simp [finalPos, List.foldl_append]

theorem mem_trackPositions_self (p : Int × Int) (l : List PossibleActions) :
    p ∈ trackPositions p l := by
  cases l <;> simp [trackPositions]

theorem trackPositions_append (l1 : List PossibleActions) :
    ∀ (p : Int × Int) (l2 : List PossibleActions) (q : Int × Int),
      (q ∈ trackPositions p (l1 ++ l2) ↔
        q ∈ trackPositions p l1 ∨ q ∈ trackPositions (finalPos p l1) l2) := by
  induction l1 with
  | nil =>
      intro p l2 q
      rw [List.nil_append]
      constructor
      · intro h
        exact Or.inr (by simpa [finalPos] using h)
      · rintro (h | h)
        · simp only [trackPositions, List.mem_singleton] at h
          rw [h]
          exact mem_trackPositions_self p l2
        · simpa [finalPos] using h
  | cons a t ih =>
      intro p l2 q
      have hfp : finalPos p (a :: t) = finalPos (applyAction p a) t := by
        simp [finalPos]
      rw [List.cons_append, hfp]
      simp only [trackPositions, List.mem_cons]
      rw [ih (applyAction p a) l2 q]
      tauto

theorem searchedCells_cons_search (p : Int × Int) (rest : List PossibleActions) :
    searchedCells p (.search :: rest) = p :: searchedCells p rest := rfl

theorem searchedCells_cons_left (p : Int × Int) (rest : List PossibleActions) :
    searchedCells p (.left :: rest) = searchedCells (applyAction p .left) rest := rfl

theorem searchedCells_cons_right (p : Int × Int) (rest : List PossibleActions) :
    searchedCells p (.right :: rest) = searchedCells (applyAction p .right) rest := rfl

theorem searchedCells_cons_up (p : Int × Int) (rest : List PossibleActions) :
    searchedCells p (.up :: rest) = searchedCells (applyAction p .up) rest := rfl

theorem searchedCells_cons_down (p : Int × Int) (rest : List PossibleActions) :
    searchedCells p (.down :: rest) = searchedCells (applyAction p .down) rest := rfl

theorem searchedCells_append (l1 : List PossibleActions) :
    ∀ (p : Int × Int) (l2 : List PossibleActions),
      searchedCells p (l1 ++ l2) =
        searchedCells p l1 ++ searchedCells (finalPos p l1) l2 := by
  induction l1 with
  | nil => intro p l2; simp [searchedCells, finalPos]
  | cons a t ih =>
      intro p l2
      cases a <;>
        simp only [List.cons_append, searchedCells_cons_search, searchedCells_cons_left,
          searchedCells_cons_right, searchedCells_cons_up, searchedCells_cons_down, ih,
          finalPos, List.foldl_cons, List.cons_append] <;>
        simp [applyAction]

/-! ### check_if_done leaves everything but the phase unchanged -/

theorem check_if_done_grid_size (s : SweepState) :
    (check_if_done s).2.grid_size = s.grid_size := by
  unfold check_if_done
  split <;> dsimp only <;> split <;> rfl

theorem check_if_done_drone_x (s : SweepState) :
    (check_if_done s).2.drone_x = s.drone_x := by
  unfold check_if_done
  split <;> dsimp only <;> split <;> rfl

theorem check_if_done_drone_y (s : SweepState) :
    (check_if_done s).2.drone_y = s.drone_y := by
  unfold check_if_done
  split <;> dsimp only <;> split <;> rfl

theorem check_if_done_end_x (s : SweepState) :
    (check_if_done s).2.end_position_x = s.end_position_x := by
  unfold check_if_done
  split <;> dsimp only <;> split <;> rfl

theorem check_if_done_end_y (s : SweepState) :
    (check_if_done s).2.end_position_y = s.end_position_y := by
  unfold check_if_done
  split <;> dsimp only <;> split <;> rfl

theorem check_if_done_is_going_right (s : SweepState) :
    (check_if_done s).2.is_going_right = s.is_going_right := by
  unfold check_if_done
  split <;> dsimp only <;> split <;> rfl

/-! ### Conditional unfoldings of one loop pass -/

theorem sweepIter_right_mid (s : SweepState) (hr : s.is_going_right = true)
    (hy : s.drone_y + 1 ≠ s.grid_size - 1) :
    sweepIter s = ([.search, .right], { s with drone_y := s.drone_y + 1 }) := by
  cases hd : s.is_going_down <;> simp [sweepIter, hd, hr, hy]

theorem sweepIter_left_mid (s : SweepState) (hr : s.is_going_right = false)
    (hy : s.drone_y - 1 ≠ 0) :
    sweepIter s = ([.search, .left], { s with drone_y := s.drone_y - 1 }) := by
  cases hd : s.is_going_down <;> simp [sweepIter, hd, hr, hy]

theorem sweepIter_dr_done (s : SweepState) (hd : s.is_going_down = true)
    (hr : s.is_going_right = true) (hy : s.drone_y + 1 = s.grid_size - 1)
    (he : s.drone_x = s.end_position_x ∧ s.drone_y + 1 = s.end_position_y) :
    sweepIter s = ([.search, .right],
      { s with drone_y := s.drone_y + 1, is_going_right := false,
               is_going_down := false }) := by
  have hc : s.end_position_y = s.grid_size - 1 := by omega
  simp [sweepIter, hd, hr, hy, check_if_done, he.1, hc]

theorem sweepIter_dr_cont (s : SweepState) (hd : s.is_going_down = true)
    (hr : s.is_going_right = true) (hy : s.drone_y + 1 = s.grid_size - 1)
    (he : ¬(s.drone_x = s.end_position_x ∧ s.drone_y + 1 = s.end_position_y)) :
    sweepIter s = ([.search, .right, .down],
      { s with drone_x := s.drone_x + 1, drone_y := s.drone_y + 1,
               is_going_right := false }) := by
  by_cases hA : s.drone_x = s.end_position_x
  · have hB : ¬(s.grid_size - 1 = s.end_position_y) := fun hB => he ⟨hA, by omega⟩
    simp [sweepIter, hd, hr, hy, check_if_done, hA, hB]
  · simp [sweepIter, hd, hr, hy, check_if_done, hA]

theorem sweepIter_dl_done (s : SweepState) (hd : s.is_going_down = true)
    (hr : s.is_going_right = false) (hy : s.drone_y - 1 = 0)
    (he : s.drone_x = s.end_position_x ∧ s.drone_y - 1 = s.end_position_y) :
    sweepIter s = ([.search, .left],
      { s with drone_y := s.drone_y - 1, is_going_right := true,
               is_going_down := false }) := by
  have hc : s.end_position_y = 0 := by omega
  simp [sweepIter, hd, hr, hy, check_if_done, he.1, hc]

theorem sweepIter_dl_cont (s : SweepState) (hd : s.is_going_down = true)
    (hr : s.is_going_right = false) (hy : s.drone_y - 1 = 0)
    (he : ¬(s.drone_x = s.end_position_x ∧ s.drone_y - 1 = s.end_position_y)) :
    sweepIter s = ([.search, .left, .down],
      { s with drone_x := s.drone_x + 1, drone_y := s.drone_y - 1,
               is_going_right := true }) := by
  by_cases hA : s.drone_x = s.end_position_x
  · have hB : ¬((0 : Int) = s.end_position_y) := fun hB => he ⟨hA, by omega⟩
    simp [sweepIter, hd, hr, hy, check_if_done, hA, hB]
  · simp [sweepIter, hd, hr, hy, check_if_done, hA]

theorem sweepIter_ur_done (s : SweepState) (hd : s.is_going_down = false)
    (hr : s.is_going_right = true) (hy : s.drone_y + 1 = s.grid_size - 1)
    (he : s.drone_x = 0 ∧ s.drone_y + 1 = 0) :
    sweepIter s = ([.search, .right],
      { s with drone_y := s.drone_y + 1, is_going_right := false,
               is_going_down := true }) := by
  have hc : s.grid_size - 1 = 0 := by omega
  simp [sweepIter, hd, hr, hy, check_if_done, he.1, hc]

theorem sweepIter_ur_cont (s : SweepState) (hd : s.is_going_down = false)
    (hr : s.is_going_right = true) (hy : s.drone_y + 1 = s.grid_size - 1)
    (he : ¬(s.drone_x = 0 ∧ s.drone_y + 1 = 0)) :
    sweepIter s = ([.search, .right, .up],
      { s with drone_x := s.drone_x - 1, drone_y := s.drone_y + 1,
               is_going_right := false }) := by
  by_cases hA : s.drone_x = 0
  · have hB : ¬(s.grid_size - 1 = 0) := fun hB => he ⟨hA, by omega⟩
    simp [sweepIter, hd, hr, hy, check_if_done, hA, hB]
  · simp [sweepIter, hd, hr, hy, check_if_done, hA]

theorem sweepIter_ul_done (s : SweepState) (hd : s.is_going_down = false)
    (hr : s.is_going_right = false) (hy : s.drone_y - 1 = 0)
    (he : s.drone_x = 0 ∧ s.drone_y - 1 = 0) :
    sweepIter s = ([.search, .left],
      { s with drone_y := s.drone_y - 1, is_going_right := true,
               is_going_down := true }) := by
  simp [sweepIter, hd, hr, hy, check_if_done, he.1]

theorem sweepIter_ul_cont (s : SweepState) (hd : s.is_going_down = false)
    (hr : s.is_going_right = false) (hy : s.drone_y - 1 = 0)
    (he : ¬(s.drone_x = 0 ∧ s.drone_y - 1 = 0)) :
    sweepIter s = ([.search, .left, .up],
      { s with drone_x := s.drone_x - 1, drone_y := s.drone_y - 1,
               is_going_right := true }) := by
  have hA : ¬(s.drone_x = 0) := fun h => he ⟨h, hy⟩
  simp [sweepIter, hd, hr, hy, check_if_done, hA]

/-! ### Straight horizontal runs -/

theorem hChunkR_succ (k : Nat) :
    hChunkR (k + 1) = .search :: .right :: hChunkR k := rfl

theorem hChunkL_succ (k : Nat) :
    hChunkL (k + 1) = .search :: .left :: hChunkL k := rfl

theorem finalPos_hChunkR (k : Nat) :
    ∀ x y : Int, finalPos (x, y) (hChunkR k) = (x, y + (k : Int)) := by
  induction k with
  | zero => intro x y; simp [hChunkR, finalPos]
  | succ n ih =>
      intro x y
      rw [hChunkR_succ]
      have h1 : finalPos (x, y) (.search :: .right :: hChunkR n) =
          finalPos (x, y + 1) (hChunkR n) := by
        simp [finalPos, applyAction]
      rw [h1, ih]
      have h2 : y + 1 + (n : Int) = y + ((n + 1 : Nat) : Int) := by push_cast; ring
      rw [h2]

theorem finalPos_hChunkL (k : Nat) :
    ∀ x y : Int, finalPos (x, y) (hChunkL k) = (x, y - (k : Int)) := by
  induction k with
  | zero => intro x y; simp [hChunkL, finalPos]
  | succ n ih =>
      intro x y
      rw [hChunkL_succ]
      have h1 : finalPos (x, y) (.search :: .left :: hChunkL n) =
          finalPos (x, y - 1) (hChunkL n) := by
        simp [finalPos, applyAction]
      rw [h1, ih]
      have h2 : y - 1 - (n : Int) = y - ((n + 1 : Nat) : Int) := by push_cast; ring
      rw [h2]

theorem mem_trackPositions_hChunkR (k : Nat) :
    ∀ j : Nat, j ≤ k → ∀ x y : Int,
      (x, y + (j : Int)) ∈ trackPositions (x, y) (hChunkR k) := by
  induction k with
  | zero =>
      intro j hj x y
      have hj0 : j = 0 := by omega
      subst hj0
      simp [hChunkR, trackPositions]
  | succ n ih =>
      intro j hj x y
      rw [hChunkR_succ]
      simp only [trackPositions, applyAction, List.mem_cons]
      rcases Nat.eq_zero_or_pos j with rfl | hjpos
      · left; simp
      · right; right
        have h1 : j - 1 ≤ n := by omega
        have h2 := ih (j - 1) h1 x (y + 1)
        have harith : y + 1 + ((j - 1 : Nat) : Int) = y + (j : Int) := by
          have hc : ((j - 1 : Nat) : Int) = (j : Int) - 1 := by
            push_cast [Nat.cast_sub hjpos]; ring
          rw [hc]; ring
        rw [harith] at h2
        exact h2

theorem mem_trackPositions_hChunkL (k : Nat) :
    ∀ j : Nat, j ≤ k → ∀ x y : Int,
      (x, y - (j : Int)) ∈ trackPositions (x, y) (hChunkL k) := by
  induction k with
  | zero =>
      intro j hj x y
      have hj0 : j = 0 := by omega
      subst hj0
      simp [hChunkL, trackPositions]
  | succ n ih =>
      intro j hj x y
      rw [hChunkL_succ]
      simp only [trackPositions, applyAction, List.mem_cons]
      rcases Nat.eq_zero_or_pos j with rfl | hjpos
      · left; simp
      · right; right
        have h1 : j - 1 ≤ n := by omega
        have h2 := ih (j - 1) h1 x (y - 1)
        have harith : y - 1 - ((j - 1 : Nat) : Int) = y - (j : Int) := by
          have hc : ((j - 1 : Nat) : Int) = (j : Int) - 1 := by
            push_cast [Nat.cast_sub hjpos]; ring
          rw [hc]; ring
        rw [harith] at h2
        exact h2

theorem mem_searchedCells_hChunkR (k : Nat) :
    ∀ j : Nat, j < k → ∀ x y : Int,
      (x, y + (j : Int)) ∈ searchedCells (x, y) (hChunkR k) := by
  induction k with
  | zero => intro j hj x y; omega
  | succ n ih =>
      intro j hj x y
      rw [hChunkR_succ]
      simp only [searchedCells_cons_search, searchedCells_cons_right, applyAction,
        List.mem_cons]
      rcases Nat.eq_zero_or_pos j with rfl | hjpos
      · left; simp
      · right
        have h1 : j - 1 < n := by omega
        have h2 := ih (j - 1) h1 x (y + 1)
        have harith : y + 1 + ((j - 1 : Nat) : Int) = y + (j : Int) := by
          have hc : ((j - 1 : Nat) : Int) = (j : Int) - 1 := by
            push_cast [Nat.cast_sub hjpos]; ring
          rw [hc]; ring
        rw [harith] at h2
        exact h2

theorem mem_searchedCells_hChunkL (k : Nat) :
    ∀ j : Nat, j < k → ∀ x y : Int,
      (x, y - (j : Int)) ∈ searchedCells (x, y) (hChunkL k) := by
  induction k with
  | zero => intro j hj x y; omega
  | succ n ih =>
      intro j hj x y
      rw [hChunkL_succ]
      simp only [searchedCells_cons_search, searchedCells_cons_left, applyAction,
        List.mem_cons]
      rcases Nat.eq_zero_or_pos j with rfl | hjpos
      · left; simp
      · right
        have h1 : j - 1 < n := by omega
        have h2 := ih (j - 1) h1 x (y - 1)
        have harith : y - 1 - ((j - 1 : Nat) : Int) = y - (j : Int) := by
          have hc : ((j - 1 : Nat) : Int) = (j : Int) - 1 := by
            push_cast [Nat.cast_sub hjpos]; ring
          rw [hc]; ring
        rw [harith] at h2
        exact h2

theorem sweepRun_right (k : Nat) :
    ∀ s : SweepState, s.is_going_right = true →
      s.drone_y + (k : Int) ≤ s.grid_size - 2 →
      sweepRun s k = (hChunkR k, { s with drone_y := s.drone_y + (k : Int) }) := by
  induction k with
  | zero =>
      intro s hr hb
      simp [sweepRun, hChunkR]
  | succ n ih =>
      intro s hr hb
      have hcast : ((n + 1 : Nat) : Int) = (n : Int) + 1 := by push_cast; ring
      have hy : s.drone_y + 1 ≠ s.grid_size - 1 := by
        rw [hcast] at hb; omega
      have ihs := ih { s with drone_y := s.drone_y + 1 }
        (by simpa using hr) (by simp only; rw [hcast] at hb; omega)
      simp only [sweepRun]
      rw [sweepIter_right_mid s hr hy]
      dsimp only at ihs ⊢
      rw [ihs, hChunkR_succ]
      dsimp only
      rw [Prod.mk.injEq]
      refine ⟨rfl, ?_⟩
      have h3 : s.drone_y + 1 + (n : Int) = s.drone_y + ((n + 1 : Nat) : Int) := by
        rw [hcast]; ring
      rw [h3]

theorem sweepRun_left (k : Nat) :
    ∀ s : SweepState, s.is_going_right = false →
      (k : Int) + 1 ≤ s.drone_y →
      sweepRun s k = (hChunkL k, { s with drone_y := s.drone_y - (k : Int) }) := by
  induction k with
  | zero =>
      intro s hr hb
      simp [sweepRun, hChunkL]
  | succ n ih =>
      intro s hr hb
      have hcast : ((n + 1 : Nat) : Int) = (n : Int) + 1 := by push_cast; ring
      have hy : s.drone_y - 1 ≠ 0 := by
        rw [hcast] at hb; omega
      have ihs := ih { s with drone_y := s.drone_y - 1 }
        (by simpa using hr) (by simp only; rw [hcast] at hb; omega)
      simp only [sweepRun]
      rw [sweepIter_left_mid s hr hy]
      dsimp only at ihs ⊢
      rw [ihs, hChunkL_succ]
      dsimp only
      rw [Prod.mk.injEq]
      refine ⟨rfl, ?_⟩
      have h3 : s.drone_y - 1 - (n : Int) = s.drone_y - ((n + 1 : Nat) : Int) := by
        rw [hcast]; ring
      rw [h3]

/-! ### Every loop pass yields a search, one horizontal move, and at most
one vertical move -/

theorem sweepIter_shape (s : SweepState) :
    (sweepIter s).1 = [.search, .right] ∨ (sweepIter s).1 = [.search, .left] ∨
    (sweepIter s).1 = [.search, .right, .down] ∨
    (sweepIter s).1 = [.search, .left, .down] ∨
    (sweepIter s).1 = [.search, .right, .up] ∨
    (sweepIter s).1 = [.search, .left, .up] := by
  cases hd : s.is_going_down <;> cases hr : s.is_going_right
  · by_cases hb : s.drone_y - 1 = 0
    · by_cases hdone : s.drone_x = 0 ∧ s.drone_y - 1 = 0
      · rw [sweepIter_ul_done s hd hr hb hdone]; tauto
      · rw [sweepIter_ul_cont s hd hr hb hdone]; tauto
    · rw [sweepIter_left_mid s hr hb]; tauto
  · by_cases hb : s.drone_y + 1 = s.grid_size - 1
    · by_cases hdone : s.drone_x = 0 ∧ s.drone_y + 1 = 0
      · rw [sweepIter_ur_done s hd hr hb hdone]; tauto
      · rw [sweepIter_ur_cont s hd hr hb hdone]; tauto
    · rw [sweepIter_right_mid s hr hb]; tauto
  · by_cases hb : s.drone_y - 1 = 0
    · by_cases hdone : s.drone_x = s.end_position_x ∧ s.drone_y - 1 = s.end_position_y
      · rw [sweepIter_dl_done s hd hr hb hdone]; tauto
      · rw [sweepIter_dl_cont s hd hr hb hdone]; tauto
    · rw [sweepIter_left_mid s hr hb]; tauto
  · by_cases hb : s.drone_y + 1 = s.grid_size - 1
    · by_cases hdone : s.drone_x = s.end_position_x ∧ s.drone_y + 1 = s.end_position_y
      · rw [sweepIter_dr_done s hd hr hb hdone]; tauto
      · rw [sweepIter_dr_cont s hd hr hb hdone]; tauto
    · rw [sweepIter_right_mid s hr hb]; tauto

theorem blocks_append (l1 l2 : List PossibleActions) (h1 : Blocks l1)
    (h2 : Blocks l2) : Blocks (l1 ++ l2) := by
  induction h1 with
  | nil => simpa using h2
  | short h rest hh hB ih => exact Blocks.short h (rest ++ l2) hh ih
  | long h v rest hh hv hB ih => exact Blocks.long h v (rest ++ l2) hh hv ih

theorem sweepIter_blocks (s : SweepState) : Blocks (sweepIter s).1 := by
  rcases sweepIter_shape s with h | h | h | h | h | h <;> rw [h]
  · exact Blocks.short _ _ (Or.inr rfl) Blocks.nil
  · exact Blocks.short _ _ (Or.inl rfl) Blocks.nil
  · exact Blocks.long _ _ _ (Or.inr rfl) (Or.inr rfl) Blocks.nil
  · exact Blocks.long _ _ _ (Or.inl rfl) (Or.inr rfl) Blocks.nil
  · exact Blocks.long _ _ _ (Or.inr rfl) (Or.inl rfl) Blocks.nil
  · exact Blocks.long _ _ _ (Or.inl rfl) (Or.inl rfl) Blocks.nil

theorem sweepRun_blocks (k : Nat) : ∀ s : SweepState, Blocks (sweepRun s k).1 := by
  induction k with
  | zero => intro s; exact Blocks.nil
  | succ n ih =>
      intro s
      simp only [sweepRun]
      exact blocks_append _ _ (sweepIter_blocks s) (ih (sweepIter s).2)

/-! ### Row traversals of the square sweep -/

theorem downRow_even_cont (n i : Nat) (h2 : 2 ≤ n) (hi : i % 2 = 0) (hlt : i < n - 1) :
    sweepRun (dRow n i) (n - 1) =
      (hChunkR (n - 2) ++ [.search, .right, .down], dRow n (i + 1)) := by
  have hsplit : n - 1 = (n - 2) + 1 := by omega
  rw [hsplit, sweepRun_add]
  have hrun := sweepRun_right (n - 2) (dRow n i) (by simp [dRow, hi])
    (by simp only [dRow, hi, if_pos]; push_cast [Nat.cast_sub h2]; omega)
  rw [hrun]
  simp only [dRow, hi, if_pos]
  have hstep := sweepIter_dr_cont
    { grid_size := (n : Int), drone_x := (i : Int),
      drone_y := (if i % 2 = 0 then 0 else (n : Int) - 1) + ((n - 2 : Nat) : Int),
      end_position_x := (n : Int) - 1,
      end_position_y := if n % 2 = 0 then 0 else (n : Int) - 1,
      is_going_down := true, is_going_right := decide (i % 2 = 0) }
    rfl (by simp [hi])
    (by simp only [hi, if_pos]; push_cast [Nat.cast_sub h2]; omega)
    (by
      simp only [hi, if_pos]
      rintro ⟨hx, hy⟩
      have hx2 : (i : Int) = (n : Int) - 1 := hx
      omega)
  simp only [hi, if_pos] at hstep
  simp only [sweepRun, hstep, List.append_nil]
  rw [Prod.mk.injEq]
  refine ⟨rfl, ?_⟩
  have hpar : (i + 1) % 2 = 1 := by omega
  simp [hpar]
  omega

theorem downRow_even_done (n : Nat) (h2 : 2 ≤ n) (hi : (n - 1) % 2 = 0) :
    sweepRun (dRow n (n - 1)) (n - 1) =
      (hChunkR (n - 2) ++ [.search, .right], uRow n 0) := by
  have hodd : n % 2 = 1 := by omega
  have hsplit : n - 1 = (n - 2) + 1 := by omega
  nth_rewrite 2 [hsplit]
  rw [sweepRun_add]
  have hrun := sweepRun_right (n - 2) (dRow n (n - 1)) (by simp [dRow, hi])
    (by simp only [dRow, hi, if_pos]; push_cast [Nat.cast_sub h2]; omega)
  rw [hrun]
  simp only [dRow, hi, if_pos]
  have hstep := sweepIter_dr_done
    { grid_size := (n : Int), drone_x := ((n - 1 : Nat) : Int),
      drone_y := (if (n - 1) % 2 = 0 then 0 else (n : Int) - 1) + ((n - 2 : Nat) : Int),
      end_position_x := (n : Int) - 1,
      end_position_y := if n % 2 = 0 then 0 else (n : Int) - 1,
      is_going_down := true, is_going_right := decide ((n - 1) % 2 = 0) }
    rfl (by simp [hi])
    (by simp only [hi, if_pos]; push_cast [Nat.cast_sub h2]; omega)
    (by
      simp only [hi, if_pos, hodd]
      norm_num
      constructor
      · push_cast [Nat.cast_sub (show 1 ≤ n by omega)]
        ring
      · push_cast [Nat.cast_sub h2]
        omega)
  simp only [hi, if_pos] at hstep
  simp only [sweepRun, hstep, List.append_nil]
  rw [Prod.mk.injEq]
  refine ⟨rfl, ?_⟩
  simp only [uRow]
  have hx : ((n - 1 : Nat) : Int) = (n : Int) - 1 - ((0 : Nat) : Int) := by
    push_cast [Nat.cast_sub (show 1 ≤ n by omega)]; ring
  have hy : (0 : Int) + ((n - 2 : Nat) : Int) + 1 = (n : Int) - 1 := by
    push_cast [Nat.cast_sub h2]; ring
  simp [hx, hy, hi, hodd]
  omega

theorem downRow_odd_cont (n i : Nat) (h2 : 2 ≤ n) (hi : i % 2 = 1) (hlt : i < n - 1) :
    sweepRun (dRow n i) (n - 1) =
      (hChunkL (n - 2) ++ [.search, .left, .down], dRow n (i + 1)) := by
  have hsplit : n - 1 = (n - 2) + 1 := by omega
  rw [hsplit, sweepRun_add]
  have hrun := sweepRun_left (n - 2) (dRow n i) (by simp [dRow, hi])
    (by simp only [dRow, hi]; norm_num; push_cast [Nat.cast_sub h2]; omega)
  rw [hrun]
  simp only [dRow, hi]
  have hstep := sweepIter_dl_cont
    { grid_size := (n : Int), drone_x := (i : Int),
      drone_y := (if i % 2 = 0 then 0 else (n : Int) - 1) - ((n - 2 : Nat) : Int),
      end_position_x := (n : Int) - 1,
      end_position_y := if n % 2 = 0 then 0 else (n : Int) - 1,
      is_going_down := true, is_going_right := decide (i % 2 = 0) }
    rfl (by simp [hi])
    (by simp only [hi]; norm_num; push_cast [Nat.cast_sub h2]; omega)
    (by
      simp only [hi]
      norm_num
      rintro hx
      have hx2 : (i : Int) = (n : Int) - 1 := hx
      omega)
  simp only [hi] at hstep
  norm_num at hstep
  simp only [sweepRun, List.append_nil]
  norm_num
  rw [hstep]
  have hpar : (i + 1) % 2 = 0 := by omega
  simp [hpar]
  omega

theorem downRow_odd_done (n : Nat) (h2 : 2 ≤ n) (hi : (n - 1) % 2 = 1) :
    sweepRun (dRow n (n - 1)) (n - 1) =
      (hChunkL (n - 2) ++ [.search, .left], uRow n 0) := by
  have heven : n % 2 = 0 := by omega
  have hsplit : n - 1 = (n - 2) + 1 := by omega
  nth_rewrite 2 [hsplit]
  rw [sweepRun_add]
  have hrun := sweepRun_left (n - 2) (dRow n (n - 1)) (by simp [dRow, hi])
    (by simp only [dRow, hi]; norm_num; push_cast [Nat.cast_sub h2]; omega)
  rw [hrun]
  simp only [dRow, hi]
  have hstep := sweepIter_dl_done
    { grid_size := (n : Int), drone_x := ((n - 1 : Nat) : Int),
      drone_y := (if (n - 1) % 2 = 0 then 0 else (n : Int) - 1) - ((n - 2 : Nat) : Int),
      end_position_x := (n : Int) - 1,
      end_position_y := if n % 2 = 0 then 0 else (n : Int) - 1,
      is_going_down := true, is_going_right := decide ((n - 1) % 2 = 0) }
    rfl (by simp [hi])
    (by simp only [hi]; norm_num; push_cast [Nat.cast_sub h2]; omega)
    (by
      simp only [hi, heven]
      norm_num
      constructor
      · push_cast [Nat.cast_sub (show 1 ≤ n by omega)]
        ring
      · push_cast [Nat.cast_sub h2]
        omega)
  simp only [hi] at hstep
  norm_num at hstep
  simp only [sweepRun, List.append_nil]
  norm_num
  rw [hstep]
  have hy : (n : Int) - 1 - ((n - 2 : Nat) : Int) - 1 = 0 := by
    push_cast [Nat.cast_sub h2]; ring
  simp [uRow, hy, hi, heven] <;> omega

theorem upRow_even_cont (n r : Nat) (h2 : 2 ≤ n) (hi : (n - 1 - r) % 2 = 0)
    (hlt : r < n - 1) :
    sweepRun (uRow n r) (n - 1) =
      (hChunkL (n - 2) ++ [.search, .left, .up], uRow n (r + 1)) := by
  have hsplit : n - 1 = (n - 2) + 1 := by omega
  rw [hsplit, sweepRun_add]
  have hrun := sweepRun_left (n - 2) (uRow n r) (by simp [uRow, hi])
    (by simp only [uRow, hi, if_pos]; push_cast [Nat.cast_sub h2]; omega)
  rw [hrun]
  simp only [uRow, hi, if_pos]
  have hstep := sweepIter_ul_cont
    { grid_size := (n : Int), drone_x := (n : Int) - 1 - (r : Int),
      drone_y := (if (n - 1 - r) % 2 = 0 then (n : Int) - 1 else 0) -
        ((n - 2 : Nat) : Int),
      end_position_x := (n : Int) - 1,
      end_position_y := if n % 2 = 0 then 0 else (n : Int) - 1,
      is_going_down := false, is_going_right := decide ((n - 1 - r) % 2 = 1) }
    rfl (by simp [hi])
    (by simp only [hi, if_pos]; push_cast [Nat.cast_sub h2]; omega)
    (by
      simp only [hi, if_pos]
      rintro ⟨hx, hy⟩
      omega)
  simp only [hi, if_pos] at hstep
  simp only [sweepRun, hstep, List.append_nil]
  rw [Prod.mk.injEq]
  refine ⟨rfl, ?_⟩
  have hxeq : (n : Int) - 1 - (r : Int) - 1 = (n : Int) - 1 - ((r + 1 : Nat) : Int) := by
    push_cast; ring
  have hyeq : (n : Int) - 1 - ((n - 2 : Nat) : Int) - 1 = 0 := by
    push_cast [Nat.cast_sub h2]; ring
  have hpar : (n - 1 - (r + 1)) % 2 = 1 := by omega
  simp [hpar, hxeq, hyeq]

theorem upRow_odd_cont (n r : Nat) (h2 : 2 ≤ n) (hi : (n - 1 - r) % 2 = 1) :
    sweepRun (uRow n r) (n - 1) =
      (hChunkR (n - 2) ++ [.search, .right, .up], uRow n (r + 1)) := by
  have hlt : r < n - 1 := by omega
  have hsplit : n - 1 = (n - 2) + 1 := by omega
  rw [hsplit, sweepRun_add]
  have hrun := sweepRun_right (n - 2) (uRow n r) (by simp [uRow, hi])
    (by simp only [uRow, hi]; norm_num; push_cast [Nat.cast_sub h2]; omega)
  rw [hrun]
  simp only [uRow, hi]
  have hstep := sweepIter_ur_cont
    { grid_size := (n : Int), drone_x := (n : Int) - 1 - (r : Int),
      drone_y := (if (n - 1 - r) % 2 = 0 then (n : Int) - 1 else 0) +
        ((n - 2 : Nat) : Int),
      end_position_x := (n : Int) - 1,
      end_position_y := if n % 2 = 0 then 0 else (n : Int) - 1,
      is_going_down := false, is_going_right := decide ((n - 1 - r) % 2 = 1) }
    rfl (by simp [hi])
    (by simp only [hi]; norm_num; push_cast [Nat.cast_sub h2]; omega)
    (by
      simp only [hi]
      norm_num
      intro hx
      push_cast [Nat.cast_sub h2]
      omega)
  simp only [hi] at hstep
  norm_num at hstep
  simp only [sweepRun, List.append_nil]
  norm_num
  rw [hstep]
  have hxeq : (n : Int) - 1 - (r : Int) - 1 = (n : Int) - 1 - ((r + 1 : Nat) : Int) := by
    push_cast; ring
  have hyeq : (0 : Int) + ((n - 2 : Nat) : Int) + 1 = (n : Int) - 1 := by
    push_cast [Nat.cast_sub h2]; ring
  have hpar : (n - 1 - (r + 1)) % 2 = 0 := by omega
  simp [hpar, hxeq, hyeq] <;> omega

theorem upRow_done (n : Nat) (h2 : 2 ≤ n) :
    sweepRun (uRow n (n - 1)) (n - 1) =
      (hChunkL (n - 2) ++ [.search, .left], dRow n 0) := by
  have hi : (n - 1 - (n - 1)) % 2 = 0 := by omega
  have hsplit : n - 1 = (n - 2) + 1 := by omega
  nth_rewrite 2 [hsplit]
  rw [sweepRun_add]
  have hrun := sweepRun_left (n - 2) (uRow n (n - 1)) (by simp [uRow, hi])
    (by simp only [uRow, hi, if_pos]; push_cast [Nat.cast_sub h2]; omega)
  rw [hrun]
  simp only [uRow, hi, if_pos]
  have hstep := sweepIter_ul_done
    { grid_size := (n : Int), drone_x := (n : Int) - 1 - ((n - 1 : Nat) : Int),
      drone_y := (if (n - 1 - (n - 1)) % 2 = 0 then (n : Int) - 1 else 0) -
        ((n - 2 : Nat) : Int),
      end_position_x := (n : Int) - 1,
      end_position_y := if n % 2 = 0 then 0 else (n : Int) - 1,
      is_going_down := false, is_going_right := decide ((n - 1 - (n - 1)) % 2 = 1) }
    rfl (by simp [hi])
    (by simp only [hi, if_pos]; push_cast [Nat.cast_sub h2]; omega)
    (by
      simp only [hi, if_pos]
      constructor
      · push_cast [Nat.cast_sub (show 1 ≤ n by omega)]
        ring
      · push_cast [Nat.cast_sub h2]
        omega)
  simp only [hi, if_pos] at hstep
  simp only [sweepRun, hstep, List.append_nil]
  rw [Prod.mk.injEq]
  refine ⟨rfl, ?_⟩
  simp only [dRow]
  have hx : (n : Int) - 1 - ((n - 1 : Nat) : Int) = ((0 : Nat) : Int) := by
    push_cast [Nat.cast_sub (show 1 ≤ n by omega)]; ring
  have hy : (n : Int) - 1 - ((n - 2 : Nat) : Int) - 1 = 0 := by
    push_cast [Nat.cast_sub h2]; ring
  simp [hx, hy]

/-! ### Coverage of a single row chunk -/

theorem track_rowR (n : Nat) (h2 : 2 ≤ n) (x y : Int) (j : Nat) (hj : j ≤ n - 1)
    (tail : List PossibleActions)
    (hmem : (x, y + ((n - 2 : Nat) : Int) + 1) ∈
      trackPositions (x, y + ((n - 2 : Nat) : Int)) tail) :
    (x, y + (j : Int)) ∈ trackPositions (x, y) (hChunkR (n - 2) ++ tail) := by
  rw [trackPositions_append, finalPos_hChunkR]
  by_cases hc : j ≤ n - 2
  · exact Or.inl (mem_trackPositions_hChunkR (n - 2) j hc x y)
  · have hj1 : j = n - 1 := by omega
    have heq : y + (j : Int) = y + ((n - 2 : Nat) : Int) + 1 := by
      subst hj1
      push_cast [Nat.cast_sub h2, Nat.cast_sub (show 1 ≤ n by omega)]
      ring
    rw [heq]
    exact Or.inr hmem

theorem track_rowL (n : Nat) (h2 : 2 ≤ n) (x y : Int) (j : Nat) (hj : j ≤ n - 1)
    (tail : List PossibleActions)
    (hmem : (x, y - ((n - 2 : Nat) : Int) - 1) ∈
      trackPositions (x, y - ((n - 2 : Nat) : Int)) tail) :
    (x, y - (j : Int)) ∈ trackPositions (x, y) (hChunkL (n - 2) ++ tail) := by
  rw [trackPositions_append, finalPos_hChunkL]
  by_cases hc : j ≤ n - 2
  · exact Or.inl (mem_trackPositions_hChunkL (n - 2) j hc x y)
  · have hj1 : j = n - 1 := by omega
    have heq : y - (j : Int) = y - ((n - 2 : Nat) : Int) - 1 := by
      subst hj1
      push_cast [Nat.cast_sub h2, Nat.cast_sub (show 1 ≤ n by omega)]
      ring
    rw [heq]
    exact Or.inr hmem

theorem searched_rowR (n : Nat) (h2 : 2 ≤ n) (x y : Int) (j : Nat) (hj : j ≤ n - 2)
    (tail : List PossibleActions)
    (hmem : (x, y + ((n - 2 : Nat) : Int)) ∈
      searchedCells (x, y + ((n - 2 : Nat) : Int)) tail) :
    (x, y + (j : Int)) ∈ searchedCells (x, y) (hChunkR (n - 2) ++ tail) := by
  rw [searchedCells_append, finalPos_hChunkR, List.mem_append]
  by_cases hc : j < n - 2
  · exact Or.inl (mem_searchedCells_hChunkR (n - 2) j hc x y)
  · have hj1 : j = n - 2 := by omega
    have heq : y + (j : Int) = y + ((n - 2 : Nat) : Int) := by
      subst hj1; ring
    rw [heq]
    exact Or.inr hmem

theorem searched_rowL (n : Nat) (h2 : 2 ≤ n) (x y : Int) (j : Nat) (hj : j ≤ n - 2)
    (tail : List PossibleActions)
    (hmem : (x, y - ((n - 2 : Nat) : Int)) ∈
      searchedCells (x, y - ((n - 2 : Nat) : Int)) tail) :
    (x, y - (j : Int)) ∈ searchedCells (x, y) (hChunkL (n - 2) ++ tail) := by
  rw [searchedCells_append, finalPos_hChunkL, List.mem_append]
  by_cases hc : j < n - 2
  · exact Or.inl (mem_searchedCells_hChunkL (n - 2) j hc x y)
  · have hj1 : j = n - 2 := by omega
    have heq : y - (j : Int) = y - ((n - 2 : Nat) : Int) := by
      subst hj1; ring
    rw [heq]
    exact Or.inr hmem

/-! ### Chaining rows into sweeps -/

theorem downSweepRows (n : Nat) (h2 : 2 ≤ n) :
    ∀ i, i ≤ n - 1 →
      ∃ l, sweepRun (dRow n 0) ((n - 1) * i) = (l, dRow n i) ∧
        finalPos (0, 0) l = ((dRow n i).drone_x, (dRow n i).drone_y) ∧
        (∀ x y : Nat, x < i → y ≤ n - 1 →
          ((x : Int), (y : Int)) ∈ trackPositions (0, 0) l) ∧
        (∀ x y : Nat, x < i → dSearchCond n x y →
          ((x : Int), (y : Int)) ∈ searchedCells (0, 0) l) := by
  intro i
  induction i with
  | zero =>
      intro _
      refine ⟨[], by simp [sweepRun], by simp [finalPos, dRow], ?_, ?_⟩
      · intro x y hx _; omega
      · intro x y hx _; omega
  | succ i ih =>
      intro hle
      have hi_le : i ≤ n - 1 := by omega
      have hi_lt : i < n - 1 := by omega
      obtain ⟨l, hrun, hfin, htrack, hsearch⟩ := ih hi_le
      rcases Nat.mod_two_eq_zero_or_one i with hpar | hpar
      · have hrow := downRow_even_cont n i h2 hpar hi_lt
        refine ⟨l ++ (hChunkR (n - 2) ++ [.search, .right, .down]), ?_, ?_, ?_, ?_⟩
        · rw [Nat.mul_succ, sweepRun_add, hrun]
          simp only
          rw [hrow]
        · rw [finalPos_append, hfin]
          simp only [dRow, hpar, if_pos]
          rw [finalPos_append, finalPos_hChunkR]
          simp only [finalPos, List.foldl_cons, List.foldl_nil, applyAction]
          have hpar1 : (i + 1) % 2 = 1 := by omega
          simp only [hpar1]
          norm_num
          omega
        · intro x y hx hy
          rw [trackPositions_append]
          rcases Nat.lt_or_ge x i with hxi | hxi
          · exact Or.inl (htrack x y hxi hy)
          · have hxeq : x = i := by omega
            subst hxeq
            refine Or.inr ?_
            rw [hfin]
            simp only [dRow, hpar, if_pos]
            have hm := track_rowR n h2 (x : Int) 0 y hy [.search, .right, .down]
              (by simp [trackPositions, applyAction])
            simpa using hm
        · intro x y hx hcond
          rw [searchedCells_append, List.mem_append]
          rcases Nat.lt_or_ge x i with hxi | hxi
          · exact Or.inl (hsearch x y hxi hcond)
          · have hxeq : x = i := by omega
            subst hxeq
            refine Or.inr ?_
            rw [hfin]
            simp only [dRow, hpar, if_pos]
            have hyb : y ≤ n - 2 := by
              unfold dSearchCond at hcond
              rw [if_pos hpar] at hcond
              exact hcond
            have hm := searched_rowR n h2 (x : Int) 0 y hyb [.search, .right, .down]
              (by simp [searchedCells_cons_search, List.mem_cons])
            simpa using hm
      · have hrow := downRow_odd_cont n i h2 hpar hi_lt
        refine ⟨l ++ (hChunkL (n - 2) ++ [.search, .left, .down]), ?_, ?_, ?_, ?_⟩
        · rw [Nat.mul_succ, sweepRun_add, hrun]
          simp only
          rw [hrow]
        · rw [finalPos_append, hfin]
          simp only [dRow, hpar]
          norm_num
          rw [finalPos_append, finalPos_hChunkL]
          simp only [finalPos, List.foldl_cons, List.foldl_nil, applyAction]
          have hpar1 : (i + 1) % 2 = 0 := by omega
          simp only [hpar1]
          norm_num
          omega
        · intro x y hx hy
          rw [trackPositions_append]
          rcases Nat.lt_or_ge x i with hxi | hxi
          · exact Or.inl (htrack x y hxi hy)
          · have hxeq : x = i := by omega
            subst hxeq
            refine Or.inr ?_
            rw [hfin]
            simp only [dRow, hpar]
            norm_num
            have hj : n - 1 - y ≤ n - 1 := by omega
            have hm := track_rowL n h2 (x : Int) ((n : Int) - 1) (n - 1 - y) hj
              [.search, .left, .down]
              (by simp [trackPositions, applyAction])
            have harith : (n : Int) - 1 - ((n - 1 - y : Nat) : Int) = (y : Int) := by
              push_cast [Nat.cast_sub (show y ≤ n - 1 from hy),
                Nat.cast_sub (show 1 ≤ n by omega)]
              ring
            rw [harith] at hm
            exact hm
        · intro x y hx hcond
          rw [searchedCells_append, List.mem_append]
          rcases Nat.lt_or_ge x i with hxi | hxi
          · exact Or.inl (hsearch x y hxi hcond)
          · have hxeq : x = i := by omega
            subst hxeq
            refine Or.inr ?_
            rw [hfin]
            simp only [dRow, hpar]
            norm_num
            have hyb : 1 ≤ y ∧ y ≤ n - 1 := by
              unfold dSearchCond at hcond
              rw [if_neg (by omega)] at hcond
              exact hcond
            have hj : n - 1 - y ≤ n - 2 := by omega
            have hm := searched_rowL n h2 (x : Int) ((n : Int) - 1) (n - 1 - y) hj
              [.search, .left, .down]
              (by simp [searchedCells_cons_search, List.mem_cons])
            have harith : (n : Int) - 1 - ((n - 1 - y : Nat) : Int) = (y : Int) := by
              push_cast [Nat.cast_sub (show y ≤ n - 1 by omega),
                Nat.cast_sub (show 1 ≤ n by omega)]
              ring
            rw [harith] at hm
            exact hm

theorem downSweep (n : Nat) (h2 : 2 ≤ n) :
    ∃ l, sweepRun (dRow n 0) (n * (n - 1)) = (l, uRow n 0) ∧
      finalPos (0, 0) l = ((uRow n 0).drone_x, (uRow n 0).drone_y) ∧
      (∀ x y : Nat, x ≤ n - 1 → y ≤ n - 1 →
        ((x : Int), (y : Int)) ∈ trackPositions (0, 0) l) ∧
      (∀ x y : Nat, x ≤ n - 1 → dSearchCond n x y →
        ((x : Int), (y : Int)) ∈ searchedCells (0, 0) l) := by
  obtain ⟨l, hrun, hfin, htrack, hsearch⟩ := downSweepRows n h2 (n - 1) le_rfl
  have hsplit : n * (n - 1) = (n - 1) * (n - 1) + (n - 1) := by
    obtain ⟨m, rfl⟩ : ∃ m, n = m + 1 := ⟨n - 1, by omega⟩
    simp only [Nat.add_sub_cancel, Nat.succ_mul]
  rw [hsplit, sweepRun_add, hrun]
  simp only
  rcases Nat.mod_two_eq_zero_or_one (n - 1) with hpar | hpar
  · have hrow := downRow_even_done n h2 hpar
    refine ⟨l ++ (hChunkR (n - 2) ++ [.search, .right]), ?_, ?_, ?_, ?_⟩
    · rw [hrow]
    · rw [finalPos_append, hfin]
      simp only [dRow, hpar, if_pos]
      rw [finalPos_append, finalPos_hChunkR]
      simp only [finalPos, List.foldl_cons, List.foldl_nil, applyAction]
      simp only [uRow, Nat.sub_zero, hpar, if_pos]
      rw [Prod.mk.injEq]
      constructor <;> omega
    · intro x y hx hy
      rw [trackPositions_append]
      rcases Nat.lt_or_ge x (n - 1) with hxi | hxi
      · exact Or.inl (htrack x y hxi hy)
      · have hxeq : x = n - 1 := by omega
        subst hxeq
        refine Or.inr ?_
        rw [hfin]
        simp only [dRow, hpar, if_pos]
        have hm := track_rowR n h2 ((n - 1 : Nat) : Int) 0 y hy [.search, .right]
          (by simp [trackPositions, applyAction])
        simpa using hm
    · intro x y hx hcond
      rw [searchedCells_append, List.mem_append]
      rcases Nat.lt_or_ge x (n - 1) with hxi | hxi
      · exact Or.inl (hsearch x y hxi hcond)
      · have hxeq : x = n - 1 := by omega
        subst hxeq
        refine Or.inr ?_
        rw [hfin]
        simp only [dRow, hpar, if_pos]
        have hyb : y ≤ n - 2 := by
          unfold dSearchCond at hcond
          rw [if_pos hpar] at hcond
          exact hcond
        have hm := searched_rowR n h2 ((n - 1 : Nat) : Int) 0 y hyb [.search, .right]
          (by simp [searchedCells_cons_search, List.mem_cons])
        simpa using hm
  · have hrow := downRow_odd_done n h2 hpar
    refine ⟨l ++ (hChunkL (n - 2) ++ [.search, .left]), ?_, ?_, ?_, ?_⟩
    · rw [hrow]
    · rw [finalPos_append, hfin]
      simp only [dRow, hpar]
      norm_num
      rw [finalPos_append, finalPos_hChunkL]
      simp only [finalPos, List.foldl_cons, List.foldl_nil, applyAction]
      simp only [uRow, Nat.sub_zero, hpar]
      norm_num
      constructor
      · push_cast [Nat.cast_sub (show 1 ≤ n by omega)]; ring
      · push_cast [Nat.cast_sub h2]; ring
    · intro x y hx hy
      rw [trackPositions_append]
      rcases Nat.lt_or_ge x (n - 1) with hxi | hxi
      · exact Or.inl (htrack x y hxi hy)
      · have hxeq : x = n - 1 := by omega
        subst hxeq
        refine Or.inr ?_
        rw [hfin]
        simp only [dRow, hpar]
        norm_num
        have hj : n - 1 - y ≤ n - 1 := by omega
        have hm := track_rowL n h2 ((n - 1 : Nat) : Int) ((n : Int) - 1) (n - 1 - y) hj
          [.search, .left] (by simp [trackPositions, applyAction])
        have harith : (n : Int) - 1 - ((n - 1 - y : Nat) : Int) = (y : Int) := by
          push_cast [Nat.cast_sub (show y ≤ n - 1 from hy),
            Nat.cast_sub (show 1 ≤ n by omega)]
          ring
        rw [harith] at hm
        exact hm
    · intro x y hx hcond
      rw [searchedCells_append, List.mem_append]
      rcases Nat.lt_or_ge x (n - 1) with hxi | hxi
      · exact Or.inl (hsearch x y hxi hcond)
      · have hxeq : x = n - 1 := by omega
        subst hxeq
        refine Or.inr ?_
        rw [hfin]
        simp only [dRow, hpar]
        norm_num
        have hyb : 1 ≤ y ∧ y ≤ n - 1 := by
          unfold dSearchCond at hcond
          rw [if_neg (by omega)] at hcond
          exact hcond
        have hj : n - 1 - y ≤ n - 2 := by omega
        have hm := searched_rowL n h2 ((n - 1 : Nat) : Int) ((n : Int) - 1) (n - 1 - y) hj
          [.search, .left] (by simp [searchedCells_cons_search, List.mem_cons])
        have harith : (n : Int) - 1 - ((n - 1 - y : Nat) : Int) = (y : Int) := by
          push_cast [Nat.cast_sub (show y ≤ n - 1 by omega),
            Nat.cast_sub (show 1 ≤ n by omega)]
          ring
        rw [harith] at hm
        exact hm

theorem upSweepRows (n : Nat) (h2 : 2 ≤ n) :
    ∀ r, r ≤ n - 1 →
      ∃ l, sweepRun (uRow n 0) ((n - 1) * r) = (l, uRow n r) ∧
        finalPos ((uRow n 0).drone_x, (uRow n 0).drone_y) l =
          ((uRow n r).drone_x, (uRow n r).drone_y) ∧
        (∀ x y : Nat, n - 1 - r < x → x ≤ n - 1 → uSearchCond n x y →
          ((x : Int), (y : Int)) ∈
            searchedCells ((uRow n 0).drone_x, (uRow n 0).drone_y) l) := by
  intro r
  induction r with
  | zero =>
      intro _
      refine ⟨[], by simp [sweepRun], by simp [finalPos], ?_⟩
      intro x y hx1 hx2 _
      omega
  | succ r ih =>
      intro hle
      have hr_le : r ≤ n - 1 := by omega
      have hr_lt : r < n - 1 := by omega
      obtain ⟨l, hrun, hfin, hsearch⟩ := ih hr_le
      have hxcast : ((n - 1 - r : Nat) : Int) = (n : Int) - 1 - (r : Int) := by
        push_cast [Nat.cast_sub hr_le, Nat.cast_sub (show 1 ≤ n by omega)]
        ring
      rcases Nat.mod_two_eq_zero_or_one (n - 1 - r) with hpar | hpar
      · have hrow := upRow_even_cont n r h2 hpar hr_lt
        refine ⟨l ++ (hChunkL (n - 2) ++ [.search, .left, .up]), ?_, ?_, ?_⟩
        · rw [Nat.mul_succ, sweepRun_add, hrun]
          simp only
          rw [hrow]
        · rw [finalPos_append, hfin]
          simp only [uRow, hpar, if_pos]
          rw [finalPos_append, finalPos_hChunkL]
          simp only [finalPos, List.foldl_cons, List.foldl_nil, applyAction]
          have hpar1 : (n - 1 - (r + 1)) % 2 = 1 := by omega
          simp only [hpar1]
          norm_num
          constructor
          · push_cast; ring
          · push_cast [Nat.cast_sub h2]; ring
        · intro x y hx1 hx2 hcond
          rw [searchedCells_append, List.mem_append]
          by_cases hxi : n - 1 - r < x
          · exact Or.inl (hsearch x y hxi hx2 hcond)
          · have hxeq : x = n - 1 - r := by omega
            refine Or.inr ?_
            rw [hfin]
            simp only [uRow, hpar, if_pos]
            have hyb : 1 ≤ y ∧ y ≤ n - 1 := by
              unfold uSearchCond at hcond
              rw [hxeq, if_pos hpar] at hcond
              exact hcond
            have hj : n - 1 - y ≤ n - 2 := by omega
            have hm := searched_rowL n h2 ((n : Int) - 1 - (r : Int)) ((n : Int) - 1)
              (n - 1 - y) hj [.search, .left, .up]
              (by simp [searchedCells_cons_search, List.mem_cons])
            have harith : (n : Int) - 1 - ((n - 1 - y : Nat) : Int) = (y : Int) := by
              push_cast [Nat.cast_sub (show y ≤ n - 1 by omega),
                Nat.cast_sub (show 1 ≤ n by omega)]
              ring
            rw [harith] at hm
            have hxint : ((x : Nat) : Int) = (n : Int) - 1 - (r : Int) := by
              rw [hxeq, hxcast]
            rw [hxint]
            exact hm
      · have hrow := upRow_odd_cont n r h2 hpar
        refine ⟨l ++ (hChunkR (n - 2) ++ [.search, .right, .up]), ?_, ?_, ?_⟩
        · rw [Nat.mul_succ, sweepRun_add, hrun]
          simp only
          rw [hrow]
        · rw [finalPos_append, hfin]
          simp only [uRow, hpar]
          norm_num
          rw [finalPos_append, finalPos_hChunkR]
          simp only [finalPos, List.foldl_cons, List.foldl_nil, applyAction]
          have hpar1 : (n - 1 - (r + 1)) % 2 = 0 := by omega
          simp only [hpar1]
          norm_num
          constructor
          · push_cast; ring
          · push_cast [Nat.cast_sub h2]; ring
        · intro x y hx1 hx2 hcond
          rw [searchedCells_append, List.mem_append]
          by_cases hxi : n - 1 - r < x
          · exact Or.inl (hsearch x y hxi hx2 hcond)
          · have hxeq : x = n - 1 - r := by omega
            refine Or.inr ?_
            rw [hfin]
            simp only [uRow, hpar]
            norm_num
            have hyb : y ≤ n - 2 := by
              unfold uSearchCond at hcond
              rw [hxeq, if_neg (by omega)] at hcond
              exact hcond
            have hm := searched_rowR n h2 ((n : Int) - 1 - (r : Int)) 0 y hyb
              [.search, .right, .up]
              (by simp [searchedCells_cons_search, List.mem_cons])
            have hxint : ((x : Nat) : Int) = (n : Int) - 1 - (r : Int) := by
              rw [hxeq, hxcast]
            rw [hxint]
            simpa using hm

theorem upSweep (n : Nat) (h2 : 2 ≤ n) :
    ∃ l, sweepRun (uRow n 0) (n * (n - 1)) = (l, dRow n 0) ∧
      (∀ x y : Nat, x ≤ n - 1 → uSearchCond n x y →
        ((x : Int), (y : Int)) ∈
          searchedCells ((uRow n 0).drone_x, (uRow n 0).drone_y) l) := by
  obtain ⟨l, hrun, hfin, hsearch⟩ := upSweepRows n h2 (n - 1) le_rfl
  have hsplit : n * (n - 1) = (n - 1) * (n - 1) + (n - 1) := by
    obtain ⟨m, rfl⟩ : ∃ m, n = m + 1 := ⟨n - 1, by omega⟩
    simp only [Nat.add_sub_cancel, Nat.succ_mul]
  rw [hsplit, sweepRun_add, hrun]
  simp only
  have hpar : (n - 1 - (n - 1)) % 2 = 0 := by omega
  have hrow := upRow_done n h2
  refine ⟨l ++ (hChunkL (n - 2) ++ [.search, .left]), ?_, ?_⟩
  · rw [hrow]
  · intro x y hx hcond
    rw [searchedCells_append, List.mem_append]
    rcases Nat.eq_zero_or_pos x with hx0 | hx0
    · subst hx0
      refine Or.inr ?_
      rw [hfin]
      simp only [uRow, hpar, if_pos]
      have hyb : 1 ≤ y ∧ y ≤ n - 1 := by
        unfold uSearchCond at hcond
        rw [if_pos (by omega)] at hcond
        exact hcond
      have hj : n - 1 - y ≤ n - 2 := by omega
      have hm := searched_rowL n h2 ((n : Int) - 1 - ((n - 1 : Nat) : Int))
        ((n : Int) - 1) (n - 1 - y) hj [.search, .left]
        (by simp [searchedCells_cons_search, List.mem_cons])
      have harith : (n : Int) - 1 - ((n - 1 - y : Nat) : Int) = (y : Int) := by
        push_cast [Nat.cast_sub (show y ≤ n - 1 by omega),
          Nat.cast_sub (show 1 ≤ n by omega)]
        ring
      rw [harith] at hm
      have hxint : ((0 : Nat) : Int) = (n : Int) - 1 - ((n - 1 : Nat) : Int) := by
        push_cast [Nat.cast_sub (show 1 ≤ n by omega)]
        ring
      rw [← hxint] at hm
      rw [← hxint]
      exact hm
    · exact Or.inl (hsearch x y (by omega) hx hcond)

/-! ### The generated stream of the square planner -/

theorem init_squareInfo (n : Nat) : SingleParallelSweep.init (squareInfo n) = dRow n 0 := by
  simp only [SingleParallelSweep.init, squareInfo, get_end_position, dRow]
  rcases Nat.mod_two_eq_zero_or_one n with hpar | hpar
  · have hint : (n : Int) % 2 = 0 := by omega
    simp [hint, hpar]
  · have hint : ¬((n : Int) % 2 = 0) := by omega
    simp [hint, hpar]

theorem check_dRow0 (n : Nat) (h2 : 2 ≤ n) :
    check_if_done (dRow n 0) = (false, dRow n 0) := by
  have hne : ¬((dRow n 0).drone_x = (dRow n 0).end_position_x ∧
      (dRow n 0).drone_y = (dRow n 0).end_position_y) := by
    simp only [dRow]
    rintro ⟨hx, -⟩
    norm_num at hx
    omega
  simp only [check_if_done, dRow] at hne ⊢
  simp only [if_pos]
  norm_num at hne ⊢
  intro hx
  exact hne hx

theorem actionStream_sq (n : Nat) (h2 : 2 ≤ n) (k : Nat) :
    actionStream (squareInfo n) k = (sweepRun (dRow n 0) k).1 := by
  unfold actionStream generate_next_movement
  rw [init_squareInfo, check_dRow0 n h2]
  show (sweepRun { dRow n 0 with is_going_right := true } k).1 = _
  have hrec : { dRow n 0 with is_going_right := true } = dRow n 0 := by
    simp [dRow]
  rw [hrec]

theorem actionStream_one_grid (k : Nat) : actionStream (squareInfo 1) k = [.search] := by
  rfl

/-! ### The sweep is periodic: one down sweep followed by one up sweep -/

theorem stateAtDown (n : Nat) (h2 : 2 ≤ n) :
    (sweepRun (dRow n 0) (n * (n - 1))).2 = uRow n 0 := by
  obtain ⟨l, hrun, -, -, -⟩ := downSweep n h2
  rw [hrun]

theorem stateAtCycle (n : Nat) (h2 : 2 ≤ n) :
    (sweepRun (dRow n 0) (2 * (n * (n - 1)))).2 = dRow n 0 := by
  rw [show 2 * (n * (n - 1)) = n * (n - 1) + n * (n - 1) from by ring, sweepRun_add]
  simp only
  rw [stateAtDown n h2]
  obtain ⟨l, hrun, -⟩ := upSweep n h2
  rw [hrun]

theorem statePeriod (n : Nat) (h2 : 2 ≤ n) (m : Nat) :
    (sweepRun (dRow n 0) (2 * (n * (n - 1)) + m)).2 = (sweepRun (dRow n 0) m).2 := by
  rw [sweepRun_add]
  simp only
  rw [stateAtCycle n h2]

theorem stateCycles (n : Nat) (h2 : 2 ≤ n) (c m : Nat) :
    (sweepRun (dRow n 0) (c * (2 * (n * (n - 1))) + m)).2 =
      (sweepRun (dRow n 0) m).2 := by
  induction c with
  | zero => simp
  | succ c ih =>
      rw [show (c + 1) * (2 * (n * (n - 1))) + m =
        2 * (n * (n - 1)) + (c * (2 * (n * (n - 1))) + m) from by ring]
      rw [statePeriod n h2]
      exact ih

theorem uRow_zero_pos (n : Nat) (h2 : 2 ≤ n) :
    ((uRow n 0).drone_x, (uRow n 0).drone_y) = endPos n := by
  simp only [uRow, endPos, Nat.sub_zero]
  rcases Nat.mod_two_eq_zero_or_one n with hpar | hpar
  · have hq : (n - 1) % 2 = 1 := by omega
    simp [hpar, hq]
  · have hq : (n - 1) % 2 = 0 := by omega
    simp [hpar, hq]

/-! ### The phase at every point of the sweep -/

theorem mid_decomp (n k : Nat) (h2 : 2 ≤ n) (hk : k < n * (n - 1)) :
    ∃ i j, i ≤ n - 1 ∧ j ≤ n - 2 ∧ k = (n - 1) * i + j := by
  have h1 : 0 < n - 1 := by omega
  refine ⟨k / (n - 1), k % (n - 1), ?_, ?_, ?_⟩
  · have hlt : k / (n - 1) < n := (Nat.div_lt_iff_lt_mul h1).mpr hk
    omega
  · have hm := Nat.mod_lt k h1
    omega
  · exact (Nat.div_add_mod k (n - 1)).symm

theorem downPhase_mid (n : Nat) (h2 : 2 ≤ n) (i j : Nat) (hi : i ≤ n - 1)
    (hj : j ≤ n - 2) :
    (sweepRun (dRow n 0) ((n - 1) * i + j)).2.is_going_down = true := by
  obtain ⟨l, hrun, -, -, -⟩ := downSweepRows n h2 i hi
  rw [sweepRun_add, hrun]
  simp only
  rcases Nat.mod_two_eq_zero_or_one i with hpar | hpar
  · have hstraight := sweepRun_right j (dRow n i) (by simp [dRow, hpar])
      (by simp only [dRow, hpar, if_pos]; push_cast; omega)
    rw [hstraight]
    rfl
  · have hstraight := sweepRun_left j (dRow n i) (by simp [dRow, hpar])
      (by simp only [dRow, hpar]; norm_num; push_cast [Nat.cast_sub h2]; omega)
    rw [hstraight]
    rfl

theorem upPhase_mid (n : Nat) (h2 : 2 ≤ n) (r j : Nat) (hr : r ≤ n - 1)
    (hj : j ≤ n - 2) :
    (sweepRun (dRow n 0) (n * (n - 1) + ((n - 1) * r + j))).2.is_going_down = false := by
  rw [sweepRun_add]
  simp only
  rw [stateAtDown n h2]
  obtain ⟨l, hrun, -, -⟩ := upSweepRows n h2 r hr
  rw [sweepRun_add, hrun]
  simp only
  rcases Nat.mod_two_eq_zero_or_one (n - 1 - r) with hpar | hpar
  · have hstraight := sweepRun_left j (uRow n r) (by simp [uRow, hpar])
      (by simp only [uRow, hpar, if_pos]; push_cast [Nat.cast_sub h2]; omega)
    rw [hstraight]
    rfl
  · have hstraight := sweepRun_right j (uRow n r) (by simp [uRow, hpar])
      (by simp only [uRow, hpar]; norm_num; push_cast [Nat.cast_sub h2]; omega)
    rw [hstraight]
    rfl

/-! ### Tracked positions agree with the internal drone position -/

theorem sweepIter_finalPos (s : SweepState) :
    finalPos (s.drone_x, s.drone_y) (sweepIter s).1 =
      ((sweepIter s).2.drone_x, (sweepIter s).2.drone_y) := by
  cases hd : s.is_going_down <;> cases hr : s.is_going_right
  · by_cases hb : s.drone_y - 1 = 0
    · by_cases hdone : s.drone_x = 0 ∧ s.drone_y - 1 = 0
      · rw [sweepIter_ul_done s hd hr hb hdone]; simp [finalPos, applyAction]
      · rw [sweepIter_ul_cont s hd hr hb hdone]; simp [finalPos, applyAction]
    · rw [sweepIter_left_mid s hr hb]; simp [finalPos, applyAction]
  · by_cases hb : s.drone_y + 1 = s.grid_size - 1
    · by_cases hdone : s.drone_x = 0 ∧ s.drone_y + 1 = 0
      · rw [sweepIter_ur_done s hd hr hb hdone]; simp [finalPos, applyAction]
      · rw [sweepIter_ur_cont s hd hr hb hdone]; simp [finalPos, applyAction]
    · rw [sweepIter_right_mid s hr hb]; simp [finalPos, applyAction]
  · by_cases hb : s.drone_y - 1 = 0
    · by_cases hdone : s.drone_x = s.end_position_x ∧ s.drone_y - 1 = s.end_position_y
      · rw [sweepIter_dl_done s hd hr hb hdone]; simp [finalPos, applyAction]
      · rw [sweepIter_dl_cont s hd hr hb hdone]; simp [finalPos, applyAction]
    · rw [sweepIter_left_mid s hr hb]; simp [finalPos, applyAction]
  · by_cases hb : s.drone_y + 1 = s.grid_size - 1
    · by_cases hdone : s.drone_x = s.end_position_x ∧ s.drone_y + 1 = s.end_position_y
      · rw [sweepIter_dr_done s hd hr hb hdone]; simp [finalPos, applyAction]
      · rw [sweepIter_dr_cont s hd hr hb hdone]; simp [finalPos, applyAction]
    · rw [sweepIter_right_mid s hr hb]; simp [finalPos, applyAction]

theorem sweepRun_finalPos (k : Nat) : ∀ s : SweepState,
    finalPos (s.drone_x, s.drone_y) (sweepRun s k).1 =
      ((sweepRun s k).2.drone_x, (sweepRun s k).2.drone_y) := by
  induction k with
  | zero => intro s; simp [sweepRun, finalPos]
  | succ m ih =>
      intro s
      simp only [sweepRun]
      rw [finalPos_append, sweepIter_finalPos]
      exact ih (sweepIter s).2

theorem inBounds_mk (n : Nat) (a b : Int) (h1 : 0 ≤ a) (h2 : a < (n : Int))
    (h3 : 0 ≤ b) (h4 : b < (n : Int)) : inBounds n (a, b) :=
  ⟨h1, h2, h3, h4⟩

/-! ### The in-bounds invariant of the square sweep -/

theorem sweepInv_step_dr (n : Nat) (h2 : 2 ≤ n) (s : SweepState) (hs : SweepInv n s)
    (hd : s.is_going_down = true) (hr : s.is_going_right = true) :
    SweepInv n (sweepIter s).2 ∧
      ∀ q ∈ trackPositions (s.drone_x, s.drone_y) (sweepIter s).1, inBounds n q := by
  obtain ⟨hg, hex, hey, hx0, hx1, hRb, hLb, hpD, hpU⟩ := hs
  obtain ⟨hy0, hy1⟩ := hRb hr
  have hpar : s.drone_x % 2 = 0 := (hpD hd).mp hr
  by_cases hb : s.drone_y + 1 = s.grid_size - 1
  · have hbn : s.drone_y + 1 = (n : Int) - 1 := by rw [← hg]; exact hb
    by_cases hdone : s.drone_x = s.end_position_x ∧ s.drone_y + 1 = s.end_position_y
    · rw [sweepIter_dr_done s hd hr hb hdone]
      constructor
      · unfold SweepInv
        dsimp only
        refine ⟨hg, hex, hey, hx0, hx1, ?_, ?_, ?_, ?_⟩
        · intro hcon; first | exact hcon.elim | simp at hcon | (rw [hd] at hcon; exact absurd hcon (by decide))
        · intro _; omega
        · intro hcon; first | exact hcon.elim | simp at hcon | (rw [hd] at hcon; exact absurd hcon (by decide))
        · intro _
          simp only [Bool.false_eq_true, false_iff]
          omega
      · intro q hq
        simp only [trackPositions, applyAction, List.mem_cons, List.not_mem_nil,
          or_false] at hq
        rcases hq with rfl | rfl | rfl <;>
          exact inBounds_mk n _ _ (by omega) (by omega) (by omega) (by omega)
    · have hxlt : s.drone_x ≤ (n : Int) - 2 := by
        by_contra hcon
        push_neg at hcon
        have hxeq : s.drone_x = (n : Int) - 1 := by omega
        apply hdone
        refine ⟨by rw [hxeq, hex], ?_⟩
        have hnodd : n % 2 = 1 := by omega
        rw [hbn, hey]
        simp [hnodd]
      rw [sweepIter_dr_cont s hd hr hb hdone]
      constructor
      · unfold SweepInv
        dsimp only
        refine ⟨hg, hex, hey, by omega, by omega, ?_, ?_, ?_, ?_⟩
        · intro hcon; first | exact hcon.elim | simp at hcon | (rw [hd] at hcon; exact absurd hcon (by decide))
        · intro _; omega
        · intro _
          simp only [Bool.false_eq_true, false_iff]
          omega
        · intro hcon; first | exact hcon.elim | simp at hcon | (rw [hd] at hcon; exact absurd hcon (by decide))
      · intro q hq
        simp only [trackPositions, applyAction, List.mem_cons, List.not_mem_nil,
          or_false] at hq
        rcases hq with rfl | rfl | rfl | rfl <;>
          exact inBounds_mk n _ _ (by omega) (by omega) (by omega) (by omega)
  · have hbn : s.drone_y + 1 ≠ (n : Int) - 1 := by rw [← hg]; exact hb
    rw [sweepIter_right_mid s hr hb]
    constructor
    · unfold SweepInv
      dsimp only
      refine ⟨hg, hex, hey, hx0, hx1, ?_, ?_, hpD, hpU⟩
      · intro _; omega
      · intro hcon; rw [hr] at hcon; simp at hcon
    · intro q hq
      simp only [trackPositions, applyAction, List.mem_cons, List.not_mem_nil,
        or_false] at hq
      rcases hq with rfl | rfl | rfl <;>
        exact inBounds_mk n _ _ (by omega) (by omega) (by omega) (by omega)

theorem sweepInv_step_dl (n : Nat) (h2 : 2 ≤ n) (s : SweepState) (hs : SweepInv n s)
    (hd : s.is_going_down = true) (hr : s.is_going_right = false) :
    SweepInv n (sweepIter s).2 ∧
      ∀ q ∈ trackPositions (s.drone_x, s.drone_y) (sweepIter s).1, inBounds n q := by
  obtain ⟨hg, hex, hey, hx0, hx1, hRb, hLb, hpD, hpU⟩ := hs
  obtain ⟨hy0, hy1⟩ := hLb hr
  have hpar : s.drone_x % 2 = 1 := by
    have hiff := hpD hd
    rcases (by omega : s.drone_x % 2 = 0 ∨ s.drone_x % 2 = 1) with h0 | h1
    · rw [hiff.mpr h0] at hr; simp at hr
    · exact h1
  by_cases hb : s.drone_y - 1 = 0
  · by_cases hdone : s.drone_x = s.end_position_x ∧ s.drone_y - 1 = s.end_position_y
    · rw [sweepIter_dl_done s hd hr hb hdone]
      constructor
      · unfold SweepInv
        dsimp only
        refine ⟨hg, hex, hey, hx0, hx1, ?_, ?_, ?_, ?_⟩
        · intro _; omega
        · intro hcon; first | exact hcon.elim | simp at hcon | (rw [hd] at hcon; exact absurd hcon (by decide))
        · intro hcon; first | exact hcon.elim | simp at hcon | (rw [hd] at hcon; exact absurd hcon (by decide))
        · intro _
          simp [hpar]
      · intro q hq
        simp only [trackPositions, applyAction, List.mem_cons, List.not_mem_nil,
          or_false] at hq
        rcases hq with rfl | rfl | rfl <;>
          exact inBounds_mk n _ _ (by omega) (by omega) (by omega) (by omega)
    · have hxlt : s.drone_x ≤ (n : Int) - 2 := by
        by_contra hcon
        push_neg at hcon
        have hxeq : s.drone_x = (n : Int) - 1 := by omega
        apply hdone
        refine ⟨by rw [hxeq, hex], ?_⟩
        have hneven : n % 2 = 0 := by omega
        rw [hb, hey]
        simp [hneven]
      rw [sweepIter_dl_cont s hd hr hb hdone]
      constructor
      · unfold SweepInv
        dsimp only
        refine ⟨hg, hex, hey, by omega, by omega, ?_, ?_, ?_, ?_⟩
        · intro _; omega
        · intro hcon; first | exact hcon.elim | simp at hcon | (rw [hd] at hcon; exact absurd hcon (by decide))
        · intro _
          simp only [true_iff]
          omega
        · intro hcon; first | exact hcon.elim | simp at hcon | (rw [hd] at hcon; exact absurd hcon (by decide))
      · intro q hq
        simp only [trackPositions, applyAction, List.mem_cons, List.not_mem_nil,
          or_false] at hq
        rcases hq with rfl | rfl | rfl | rfl <;>
          exact inBounds_mk n _ _ (by omega) (by omega) (by omega) (by omega)
  · rw [sweepIter_left_mid s hr hb]
    constructor
    · unfold SweepInv
      dsimp only
      refine ⟨hg, hex, hey, hx0, hx1, ?_, ?_, hpD, hpU⟩
      · intro hcon; rw [hr] at hcon; simp at hcon
      · intro _; omega
    · intro q hq
      simp only [trackPositions, applyAction, List.mem_cons, List.not_mem_nil,
        or_false] at hq
      rcases hq with rfl | rfl | rfl <;>
        exact inBounds_mk n _ _ (by omega) (by omega) (by omega) (by omega)

theorem sweepInv_step_ur (n : Nat) (h2 : 2 ≤ n) (s : SweepState) (hs : SweepInv n s)
    (hd : s.is_going_down = false) (hr : s.is_going_right = true) :
    SweepInv n (sweepIter s).2 ∧
      ∀ q ∈ trackPositions (s.drone_x, s.drone_y) (sweepIter s).1, inBounds n q := by
  obtain ⟨hg, hex, hey, hx0, hx1, hRb, hLb, hpD, hpU⟩ := hs
  obtain ⟨hy0, hy1⟩ := hRb hr
  have hpar : s.drone_x % 2 = 1 := (hpU hd).mp hr
  by_cases hb : s.drone_y + 1 = s.grid_size - 1
  · have hbn : s.drone_y + 1 = (n : Int) - 1 := by rw [← hg]; exact hb
    have hdone : ¬(s.drone_x = 0 ∧ s.drone_y + 1 = 0) := by
      rintro ⟨-, hcon⟩
      omega
    rw [sweepIter_ur_cont s hd hr hb hdone]
    constructor
    · unfold SweepInv
      dsimp only
      refine ⟨hg, hex, hey, by omega, by omega, ?_, ?_, ?_, ?_⟩
      · intro hcon; first | exact hcon.elim | simp at hcon | (rw [hd] at hcon; exact absurd hcon (by decide))
      · intro _; omega
      · intro hcon; first | exact hcon.elim | simp at hcon | (rw [hd] at hcon; exact absurd hcon (by decide))
      · intro _
        simp only [Bool.false_eq_true, false_iff]
        omega
    · intro q hq
      simp only [trackPositions, applyAction, List.mem_cons, List.not_mem_nil,
        or_false] at hq
      rcases hq with rfl | rfl | rfl | rfl <;>
        exact inBounds_mk n _ _ (by omega) (by omega) (by omega) (by omega)
  · have hbn : s.drone_y + 1 ≠ (n : Int) - 1 := by rw [← hg]; exact hb
    rw [sweepIter_right_mid s hr hb]
    constructor
    · unfold SweepInv
      dsimp only
      refine ⟨hg, hex, hey, hx0, hx1, ?_, ?_, hpD, hpU⟩
      · intro _; omega
      · intro hcon; rw [hr] at hcon; simp at hcon
    · intro q hq
      simp only [trackPositions, applyAction, List.mem_cons, List.not_mem_nil,
        or_false] at hq
      rcases hq with rfl | rfl | rfl <;>
        exact inBounds_mk n _ _ (by omega) (by omega) (by omega) (by omega)

theorem sweepInv_step_ul (n : Nat) (h2 : 2 ≤ n) (s : SweepState) (hs : SweepInv n s)
    (hd : s.is_going_down = false) (hr : s.is_going_right = false) :
    SweepInv n (sweepIter s).2 ∧
      ∀ q ∈ trackPositions (s.drone_x, s.drone_y) (sweepIter s).1, inBounds n q := by
  obtain ⟨hg, hex, hey, hx0, hx1, hRb, hLb, hpD, hpU⟩ := hs
  obtain ⟨hy0, hy1⟩ := hLb hr
  have hpar : s.drone_x % 2 = 0 := by
    have hiff := hpU hd
    rcases (by omega : s.drone_x % 2 = 0 ∨ s.drone_x % 2 = 1) with h0 | h1
    · exact h0
    · rw [hiff.mpr h1] at hr; simp at hr
  by_cases hb : s.drone_y - 1 = 0
  · by_cases hdone : s.drone_x = 0 ∧ s.drone_y - 1 = 0
    · rw [sweepIter_ul_done s hd hr hb hdone]
      constructor
      · unfold SweepInv
        dsimp only
        refine ⟨hg, hex, hey, hx0, hx1, ?_, ?_, ?_, ?_⟩
        · intro _; omega
        · intro hcon; first | exact hcon.elim | simp at hcon | (rw [hd] at hcon; exact absurd hcon (by decide))
        · intro _
          simp only [true_iff]
          omega
        · intro hcon; first | exact hcon.elim | simp at hcon | (rw [hd] at hcon; exact absurd hcon (by decide))
      · intro q hq
        simp only [trackPositions, applyAction, List.mem_cons, List.not_mem_nil,
          or_false] at hq
        rcases hq with rfl | rfl | rfl <;>
          exact inBounds_mk n _ _ (by omega) (by omega) (by omega) (by omega)
    · have hxpos : ¬(s.drone_x = 0) := fun hcon => hdone ⟨hcon, hb⟩
      rw [sweepIter_ul_cont s hd hr hb hdone]
      constructor
      · unfold SweepInv
        dsimp only
        refine ⟨hg, hex, hey, by omega, by omega, ?_, ?_, ?_, ?_⟩
        · intro _; omega
        · intro hcon; first | exact hcon.elim | simp at hcon | (rw [hd] at hcon; exact absurd hcon (by decide))
        · intro hcon; first | exact hcon.elim | simp at hcon | (rw [hd] at hcon; exact absurd hcon (by decide))
        · intro _
          simp only [true_iff]
          omega
      · intro q hq
        simp only [trackPositions, applyAction, List.mem_cons, List.not_mem_nil,
          or_false] at hq
        rcases hq with rfl | rfl | rfl | rfl <;>
          exact inBounds_mk n _ _ (by omega) (by omega) (by omega) (by omega)
  · rw [sweepIter_left_mid s hr hb]
    constructor
    · unfold SweepInv
      dsimp only
      refine ⟨hg, hex, hey, hx0, hx1, ?_, ?_, hpD, hpU⟩
      · intro hcon; rw [hr] at hcon; simp at hcon
      · intro _; omega
    · intro q hq
      simp only [trackPositions, applyAction, List.mem_cons, List.not_mem_nil,
        or_false] at hq
      rcases hq with rfl | rfl | rfl <;>
        exact inBounds_mk n _ _ (by omega) (by omega) (by omega) (by omega)

theorem sweepInv_step (n : Nat) (h2 : 2 ≤ n) (s : SweepState) (hs : SweepInv n s) :
    SweepInv n (sweepIter s).2 ∧
      ∀ q ∈ trackPositions (s.drone_x, s.drone_y) (sweepIter s).1, inBounds n q := by
  cases hd : s.is_going_down <;> cases hr : s.is_going_right
  · exact sweepInv_step_ul n h2 s hs hd hr
  · exact sweepInv_step_ur n h2 s hs hd hr
  · exact sweepInv_step_dl n h2 s hs hd hr
  · exact sweepInv_step_dr n h2 s hs hd hr

theorem sweepRunInv (n : Nat) (h2 : 2 ≤ n) (k : Nat) :
    ∀ s : SweepState, SweepInv n s →
      SweepInv n (sweepRun s k).2 ∧
      ∀ q ∈ trackPositions (s.drone_x, s.drone_y) (sweepRun s k).1, inBounds n q := by
  induction k with
  | zero =>
      intro s hs
      refine ⟨hs, ?_⟩
      intro q hq
      simp only [sweepRun, trackPositions, List.mem_singleton] at hq
      subst hq
      obtain ⟨hg, hex, hey, hx0, hx1, hRb, hLb, -, -⟩ := hs
      cases hr : s.is_going_right
      · obtain ⟨hA, hB⟩ := hLb hr
        exact inBounds_mk n _ _ (by omega) (by omega) (by omega) (by omega)
      · obtain ⟨hA, hB⟩ := hRb hr
        exact inBounds_mk n _ _ (by omega) (by omega) (by omega) (by omega)
  | succ m ih =>
      intro s hs
      obtain ⟨hinv1, htrack1⟩ := sweepInv_step n h2 s hs
      obtain ⟨hinv2, htrack2⟩ := ih (sweepIter s).2 hinv1
      constructor
      · simpa [sweepRun] using hinv2
      · intro q hq
        simp only [sweepRun] at hq
        rw [trackPositions_append, sweepIter_finalPos] at hq
        rcases hq with hq | hq
        · exact htrack1 q hq
        · exact htrack2 q hq

theorem dRow0_inv (n : Nat) (h2 : 2 ≤ n) : SweepInv n (dRow n 0) := by
  unfold SweepInv dRow
  norm_num
  omega


/-! ### Index form of the block structure -/

theorem blocks_get_zero (l : List PossibleActions) (hB : Blocks l) (h0 : 0 < l.length) :
    l[0] = PossibleActions.search := by
  cases hB with
  | nil => simp at h0
  | short h rest hh hB => rfl
  | long h v rest hh hv hB => rfl

theorem blocks_get_one (l : List PossibleActions) (hB : Blocks l) (h1 : 1 < l.length) :
    l[1] = PossibleActions.left ∨ l[1] = PossibleActions.right := by
  cases hB with
  | nil => simp at h1
  | short h rest hh hB => exact hh
  | long h v rest hh hv hB => exact hh

theorem blocks_horiz (l : List PossibleActions) (hB : Blocks l) :
    ∀ i, (h : i + 1 < l.length) →
      (l[i + 1] = PossibleActions.left ∨ l[i + 1] = PossibleActions.right) →
      l[i] = PossibleActions.search := by
  induction hB with
  | nil => intro i h; simp at h
  | short a rest hhor hB ih =>
      intro i h hmove
      match i with
      | 0 => rfl
      | 1 =>
          exfalso
          have hlen : 0 < rest.length := by
            simp only [List.length_cons] at h
            omega
          have h0 := blocks_get_zero rest hB hlen
          simp only [List.getElem_cons_succ] at hmove
          rw [h0] at hmove
          rcases hmove with hc | hc <;> simp at hc
      | j + 2 =>
          simp only [List.getElem_cons_succ] at hmove ⊢
          have hlen : j + 1 < rest.length := by
            simp only [List.length_cons] at h
            omega
          exact ih j hlen hmove
  | long a v rest hhor hvert hB ih =>
      intro i h hmove
      match i with
      | 0 => rfl
      | 1 =>
          exfalso
          simp only [List.getElem_cons_succ] at hmove
          rcases hvert with hv | hv <;> rw [hv] at hmove <;>
            rcases hmove with hc | hc <;> simp at hc
      | 2 =>
          exfalso
          have hlen : 0 < rest.length := by
            simp only [List.length_cons] at h
            omega
          have h0 := blocks_get_zero rest hB hlen
          simp only [List.getElem_cons_succ] at hmove
          rw [h0] at hmove
          rcases hmove with hc | hc <;> simp at hc
      | j + 3 =>
          simp only [List.getElem_cons_succ] at hmove ⊢
          have hlen : j + 1 < rest.length := by
            simp only [List.length_cons] at h
            omega
          exact ih j hlen hmove

theorem blocks_vert (l : List PossibleActions) (hB : Blocks l) :
    ∀ i, (h : i + 2 < l.length) →
      (l[i + 2] = PossibleActions.up ∨ l[i + 2] = PossibleActions.down) →
      l[i] = PossibleActions.search ∧
        (l[i + 1] = PossibleActions.left ∨ l[i + 1] = PossibleActions.right) := by
  induction hB with
  | nil => intro i h; simp at h
  | short a rest hhor hB ih =>
      intro i h hmove
      match i with
      | 0 =>
          exfalso
          have hlen : 0 < rest.length := by
            simp only [List.length_cons] at h
            omega
          have h0 := blocks_get_zero rest hB hlen
          simp only [List.getElem_cons_succ] at hmove
          rw [h0] at hmove
          rcases hmove with hc | hc <;> simp at hc
      | 1 =>
          exfalso
          have hlen : 1 < rest.length := by
            simp only [List.length_cons] at h
            omega
          have h1 := blocks_get_one rest hB hlen
          simp only [List.getElem_cons_succ] at hmove
          rcases h1 with hc | hc <;> rw [hc] at hmove <;>
            rcases hmove with hd | hd <;> simp at hd
      | j + 2 =>
          simp only [List.getElem_cons_succ] at hmove ⊢
          have hlen : j + 2 < rest.length := by
            simp only [List.length_cons] at h
            omega
          exact ih j hlen hmove
  | long a v rest hhor hvert hB ih =>
      intro i h hmove
      match i with
      | 0 => exact ⟨rfl, hhor⟩
      | 1 =>
          exfalso
          have hlen : 0 < rest.length := by
            simp only [List.length_cons] at h
            omega
          have h0 := blocks_get_zero rest hB hlen
          simp only [List.getElem_cons_succ] at hmove
          rw [h0] at hmove
          rcases hmove with hc | hc <;> simp at hc
      | 2 =>
          exfalso
          have hlen : 1 < rest.length := by
            simp only [List.length_cons] at h
            omega
          have h1 := blocks_get_one rest hB hlen
          simp only [List.getElem_cons_succ] at hmove
          rcases h1 with hc | hc <;> rw [hc] at hmove <;>
            rcases hmove with hd | hd <;> simp at hd
      | j + 3 =>
          simp only [List.getElem_cons_succ] at hmove ⊢
          have hlen : j + 2 < rest.length := by
            simp only [List.length_cons] at h
            omega
          exact ih j hlen hmove

/-! ### The claims about the generated stream -/

/-- C7 amended: in every planner stream, every horizontal move is
immediately preceded by a `search`, and every vertical move is
immediately preceded by a horizontal move that is itself immediately
preceded by a `search` (the original claim, that every move is
immediately preceded by a `search`, fails for vertical moves). -/
theorem c7_search_before_moves (info : DroneInfo) (k : Nat) :
    (∀ i, (h : i + 1 < (actionStream info k).length) →
      ((actionStream info k)[i + 1] = PossibleActions.left ∨
        (actionStream info k)[i + 1] = PossibleActions.right) →
      (actionStream info k)[i] = PossibleActions.search) ∧
    (∀ i, (h : i + 2 < (actionStream info k).length) →
      ((actionStream info k)[i + 2] = PossibleActions.up ∨
        (actionStream info k)[i + 2] = PossibleActions.down) →
      (actionStream info k)[i] = PossibleActions.search ∧
        ((actionStream info k)[i + 1] = PossibleActions.left ∨
          (actionStream info k)[i + 1] = PossibleActions.right)) := by
  have hB : Blocks (actionStream info k) ∨ actionStream info k = [.search] := by
    unfold actionStream generate_next_movement
    rcases hc : check_if_done (SingleParallelSweep.init info) with ⟨b, s1⟩
    cases b
    · exact Or.inl (sweepRun_blocks k _)
    · exact Or.inr rfl
  rcases hB with hB | hone
  · exact ⟨blocks_horiz _ hB, blocks_vert _ hB⟩
  · rw [hone]
    constructor
    · intro i h
      exact absurd h (by simp)
    · intro i h
      exact absurd h (by simp)

theorem c7_witness :
    (actionStream (squareInfo 2) 1).get ⟨0, by decide⟩ = PossibleActions.search ∧
    ((actionStream (squareInfo 2) 1).get ⟨1, by decide⟩ = PossibleActions.left ∨
      (actionStream (squareInfo 2) 1).get ⟨1, by decide⟩ = PossibleActions.right) :=
  (c7_search_before_moves (squareInfo 2) 1).2 0 (by decide) (Or.inr (by decide))

/-- C3 amended: for every planner on a square grid with
`lastVertex = (n-1, n-1)` and initial position `(0, 0)` — which includes
the coordinator reference planner for every agent count other than 2 —
every position reached while consuming the stream stays inside the
planner own grid.  (The original claim fails for the two-agent reference
planner, see the counterexample.) -/
theorem c3_position_bounds :
    (∀ n : Nat, 1 ≤ n → ∀ k : Nat, ∀ q : Int × Int,
      q ∈ trackPositions (0, 0) (actionStream (squareInfo n) k) →
      0 ≤ q.1 ∧ q.1 < (n : Int) ∧ 0 ≤ q.2 ∧ q.2 < (n : Int)) ∧
    (∀ c : MultipleParallelSweep, c.n_drones ≠ 2 →
      c.get_first_drone_info = squareInfo c.grid_size_each_drone) := by
  constructor
  · intro n h1 k q hq
    rcases Nat.lt_or_ge n 2 with hn | hn
    · have hn1 : n = 1 := by omega
      subst hn1
      rw [actionStream_one_grid] at hq
      simp only [trackPositions, List.mem_cons, List.not_mem_nil, or_false] at hq
      rcases hq with rfl | rfl <;> norm_num [applyAction]
    · rw [actionStream_sq n hn k] at hq
      obtain ⟨-, htrack⟩ := sweepRunInv n hn k (dRow n 0) (dRow0_inv n hn)
      have hq2 : q ∈ trackPositions ((dRow n 0).drone_x, (dRow n 0).drone_y)
          (sweepRun (dRow n 0) k).1 := by
        simpa [dRow] using hq
      exact htrack q hq2
  · intro c hc
    unfold MultipleParallelSweep.get_first_drone_info squareInfo
    rw [if_pos hc]

theorem c3_witness :
    0 ≤ ((0 : Int), (1 : Int)).1 ∧ ((0 : Int), (1 : Int)).1 < ((2 : Nat) : Int) ∧
    0 ≤ ((0 : Int), (1 : Int)).2 ∧ ((0 : Int), (1 : Int)).2 < ((2 : Nat) : Int) :=
  c3_position_bounds.1 2 (by norm_num) 1 ((0 : Int), (1 : Int)) (by decide)

/-- C2: the planner starts in the going-down phase; in every cycle it is
going down throughout the down sweep, reaches `endPos` with the phase
flipped to going up after `n(n-1)` loop passes, stays going up until the
position returns to `(0, 0)` after `2n(n-1)` passes, at which point the
state (phase going down included) is exactly the initial state again —
so the alternation repeats for every cycle count. -/
theorem c2_phase_alternation (n : Nat) (h2 : 2 ≤ n) :
    (SingleParallelSweep.init (squareInfo n)).is_going_down = true ∧
    (∀ c k : Nat, k < n * (n - 1) →
      (sweepRun (SingleParallelSweep.init (squareInfo n))
        (c * (2 * (n * (n - 1))) + k)).2.is_going_down = true) ∧
    (∀ c : Nat,
      ((sweepRun (SingleParallelSweep.init (squareInfo n))
          (c * (2 * (n * (n - 1))) + n * (n - 1))).2.drone_x,
        (sweepRun (SingleParallelSweep.init (squareInfo n))
          (c * (2 * (n * (n - 1))) + n * (n - 1))).2.drone_y) = endPos n ∧
      (sweepRun (SingleParallelSweep.init (squareInfo n))
        (c * (2 * (n * (n - 1))) + n * (n - 1))).2.is_going_down = false) ∧
    (∀ c k : Nat, n * (n - 1) ≤ k → k < 2 * (n * (n - 1)) →
      (sweepRun (SingleParallelSweep.init (squareInfo n))
        (c * (2 * (n * (n - 1))) + k)).2.is_going_down = false) ∧
    (∀ c : Nat, (sweepRun (SingleParallelSweep.init (squareInfo n))
        (c * (2 * (n * (n - 1))))).2 = SingleParallelSweep.init (squareInfo n)) := by
  rw [init_squareInfo]
  refine ⟨rfl, ?_, ?_, ?_, ?_⟩
  · intro c k hk
    rw [stateCycles n h2]
    obtain ⟨i, j, hi, hj, hk2⟩ := mid_decomp n k h2 hk
    rw [hk2]
    exact downPhase_mid n h2 i j hi hj
  · intro c
    rw [stateCycles n h2, stateAtDown n h2]
    exact ⟨uRow_zero_pos n h2, rfl⟩
  · intro c k hk1 hk2
    rw [stateCycles n h2]
    obtain ⟨r, j, hr, hj, hk3⟩ := mid_decomp n (k - n * (n - 1)) h2 (by omega)
    rw [show k = n * (n - 1) + ((n - 1) * r + j) from by omega]
    exact upPhase_mid n h2 r j hr hj
  · intro c
    rw [show c * (2 * (n * (n - 1))) = c * (2 * (n * (n - 1))) + 0 from by ring,
      stateCycles n h2]
    rfl

theorem c2_witness :
    (sweepRun (SingleParallelSweep.init (squareInfo 2)) 4).2 =
      SingleParallelSweep.init (squareInfo 2) ∧
    ((sweepRun (SingleParallelSweep.init (squareInfo 2)) 2).2.drone_x,
      (sweepRun (SingleParallelSweep.init (squareInfo 2)) 2).2.drone_y) = endPos 2 ∧
    (sweepRun (SingleParallelSweep.init (squareInfo 2)) 2).2.is_going_down = false := by
  obtain ⟨-, -, h3, -, h5⟩ := c2_phase_alternation 2 (by norm_num)
  refine ⟨?_, ?_, ?_⟩
  · have := h5 1
    norm_num at this
    exact this
  · have := (h3 0).1
    norm_num at this
    exact this
  · have := (h3 0).2
    norm_num at this
    exact this

/-- C1 as stated is false: on the 2 by 2 grid the cell `(0, 1)` is
visited during the down sweep but no `search` is emitted at it within
the down sweep (the sweep turns there and leaves it vertically in the
same loop pass). -/
theorem c1_counterexample :
    ((0 : Int), (1 : Int)) ∈ trackPositions (0, 0)
      (actionStream (squareInfo 2) (2 * (2 - 1))) ∧
    ¬ (((0 : Int), (1 : Int)) ∈ searchedCells (0, 0)
      (actionStream (squareInfo 2) (2 * (2 - 1)))) := by
  decide

/-- C1 amended: consuming the stream of the planner on any `n` by `n`
grid (`n ≥ 1`) and tracking positions, every cell is visited within one
full down sweep (`n(n-1)` loop passes) and the tracked position at the
end of the down sweep equals `endPos`; every cell receives a `search`
within one full down-and-up cycle (`2n(n-1)` passes) — but not
necessarily within the down sweep alone (see the counterexample). -/
theorem c1_down_sweep_coverage (n : Nat) (h1 : 1 ≤ n) :
    (∀ x y : Int, 0 ≤ x → x < (n : Int) → 0 ≤ y → y < (n : Int) →
      (x, y) ∈ trackPositions (0, 0) (actionStream (squareInfo n) (n * (n - 1)))) ∧
    finalPos (0, 0) (actionStream (squareInfo n) (n * (n - 1))) = endPos n ∧
    (∀ x y : Int, 0 ≤ x → x < (n : Int) → 0 ≤ y → y < (n : Int) →
      (x, y) ∈ searchedCells (0, 0)
        (actionStream (squareInfo n) (2 * (n * (n - 1))))) := by
  rcases Nat.lt_or_ge n 2 with hn | hn
  · have hn1 : n = 1 := by omega
    subst hn1
    simp only [actionStream_one_grid]
    refine ⟨?_, ?_, ?_⟩
    · intro x y hx0 hx1 hy0 hy1
      have hxy : x = 0 ∧ y = 0 := by omega
      obtain ⟨rfl, rfl⟩ := hxy
      simp [trackPositions]
    · simp [finalPos, applyAction, endPos]
    · intro x y hx0 hx1 hy0 hy1
      have hxy : x = 0 ∧ y = 0 := by omega
      obtain ⟨rfl, rfl⟩ := hxy
      simp [searchedCells]
  · obtain ⟨l, hrun, hfin, htrack, hsearch⟩ := downSweep n hn
    have hstream : actionStream (squareInfo n) (n * (n - 1)) = l := by
      rw [actionStream_sq n hn, hrun]
    refine ⟨?_, ?_, ?_⟩
    · intro x y hx0 hx1 hy0 hy1
      rw [hstream]
      obtain ⟨a, rfl⟩ : ∃ a : Nat, x = (a : Int) := ⟨x.toNat, by omega⟩
      obtain ⟨b, rfl⟩ : ∃ b : Nat, y = (b : Int) := ⟨y.toNat, by omega⟩
      exact htrack a b (by omega) (by omega)
    · rw [hstream, hfin, uRow_zero_pos n hn]
    · obtain ⟨l2, hrun2, hsearch2⟩ := upSweep n hn
      have hstream2 : actionStream (squareInfo n) (2 * (n * (n - 1))) = l ++ l2 := by
        rw [actionStream_sq n hn,
          show 2 * (n * (n - 1)) = n * (n - 1) + n * (n - 1) from by ring,
          sweepRun_add, hrun]
        simp only
        rw [hrun2]
      intro x y hx0 hx1 hy0 hy1
      rw [hstream2, searchedCells_append, List.mem_append]
      obtain ⟨a, rfl⟩ : ∃ a : Nat, x = (a : Int) := ⟨x.toNat, by omega⟩
      obtain ⟨b, rfl⟩ : ∃ b : Nat, y = (b : Int) := ⟨y.toNat, by omega⟩
      have hb1 : b ≤ n - 1 := by omega
      by_cases hcov : dSearchCond n a b
      · exact Or.inl (hsearch a b (by omega) hcov)
      · refine Or.inr ?_
        have hucov : uSearchCond n a b := by
          unfold dSearchCond at hcov
          unfold uSearchCond
          rcases Nat.mod_two_eq_zero_or_one a with hp | hp
          · rw [if_pos hp] at hcov
            rw [if_pos hp]
            omega
          · rw [if_neg (by omega)] at hcov
            rw [if_neg (by omega)]
            omega
        have hm := hsearch2 a b (by omega) hucov
        rw [hfin]
        exact hm

theorem c1_witness :
    ((1 : Int), (0 : Int)) ∈ trackPositions (0, 0)
      (actionStream (squareInfo 2) (2 * (2 - 1))) ∧
    finalPos (0, 0) (actionStream (squareInfo 2) (2 * (2 - 1))) = endPos 2 ∧
    ((0 : Int), (1 : Int)) ∈ searchedCells (0, 0)
      (actionStream (squareInfo 2) (2 * (2 * (2 - 1)))) := by
  obtain ⟨h1, h2, h3⟩ := c1_down_sweep_coverage 2 (by norm_num)
  exact ⟨h1 1 0 (by norm_num) (by norm_num) (by norm_num) (by norm_num), h2,
    h3 0 1 (by norm_num) (by norm_num) (by norm_num) (by norm_num)⟩


end ParallelSweep
